import Mathlib

/-!
Verification of the `smart_sheet_sync` record-normalization core
(`python_examples/smart_sheet_sync/utils.py` and `config.py`).

The repository's core is a declarative record-transformation schema: Python
dict/tuple/`Coalesce` structures interpreted by the external `glom` engine,
plus a library of field coercers defined in `utils.py`.  We embed:

  * `Value` — the dynamic (Python-like) value universe: `None`, strings,
    integers, booleans, dates, the `OMIT` sentinel, dicts (association lists
    preserving insertion order) and lists.
  * the coercers (`skip_falsy`, `as_string`, `insert_http`, `required`,
    `split`, `email_metadata`, `validate_answer`, `valid_assessment_order`,
    `date_or_none`, `category_match`) — translated from `utils.py`.
  * `Spec`/`eval` — the schema evaluator.  The `glom` engine itself is not
    part of the repository, so it is modelled from the design spec (§3, §4.3,
    §4.4): ordered fallback chains where the first non-failing alternative
    wins, soft failures (`GlomError`) caught by fallback chains while hard
    failures propagate, dict nodes dropping keys whose value is the Omission
    Signal, chains short-circuiting on the Omission Signal, and an exhausted
    fallback chain yielding its declared default (the Omission Signal when
    declared without one).
  * `COMPANY_SCHEMA` and `normalize_vendor` — translated from `config.py`
    and `utils.py`.

String helpers reimplement the Python string semantics actually used by the
source (single-character `str.split`, `str.strip`, `str.lower`,
`str.startswith`, `str.capitalize`) structurally so that all definitions
evaluate by kernel reduction.
-/

inductive Value where
  | none
  | str (s : String)
  | int (n : Int)
  | bool (b : Bool)
  | date (y m d : Nat)
  | omit
  | dict (fields : List (String × Value))
  | list (elems : List Value)

inductive Err where
  | glom (msg : String)
  | value (msg : String)
  deriving DecidableEq

/-- Python `s.split(sep)` for a single-character separator, on character
lists: `""` splits to `[""]`, adjacent separators produce empty groups. -/
def splitChar (sep : Char) : List Char → List (List Char)
  | [] => [[]]
  | c :: rest =>
    match splitChar sep rest with
    | [] => [[]]
    | grp :: grps => if c == sep then [] :: grp :: grps else (c :: grp) :: grps

/-- Python `s.split(sep)` for a single-character separator.  Every separator
passed by the source (`" "`, `"."`) is one character. -/
def pySplit (sep : Char) (s : String) : List String :=
  (splitChar sep s.data).map String.mk

/-- Python `str.isspace` over the whitespace characters `str.strip` removes. -/
def pyIsSpace (c : Char) : Bool :=
  c == ' ' || c == '\t' || c == '\n' || c == '\r' || c == '\x0b' || c == '\x0c'

def dropSpace : List Char → List Char
  | [] => []
  | c :: rest => if pyIsSpace c then dropSpace rest else c :: rest

/-- Python `str.strip()`. -/
def pyStrip (s : String) : String :=
  String.mk ((dropSpace (dropSpace s.data).reverse).reverse)

/-- Python `str.lower()` (ASCII case mapping suffices for the source data). -/
def pyLower (s : String) : String :=
  String.mk (s.data.map Char.toLower)

/-- Python `s.startswith(pre)`. -/
def pyStartsWith (s pre : String) : Bool :=
  pre.data.isPrefixOf s.data

/-- Python `str.capitalize()`: first character upper-cased, rest lower-cased. -/
def pyCapitalize (s : String) : String :=
  match s.data with
  | [] => ""
  | c :: rest => String.mk (c.toUpper :: rest.map Char.toLower)

/-- Python truthiness: `None`, `""`, `0`, `False` and empty collections are
falsy.  The `OMIT` sentinel is an ordinary (truthy) object. -/
def falsy : Value → Bool
  | .none => true
  | .str s => s.data.isEmpty
  | .int n => n == 0
  | .bool b => !b
  | .date _ _ _ => false
  | .omit => false
  | .dict fs => fs.isEmpty
  | .list l => l.isEmpty

/-- Python `str(value)`.  Containers and sentinels never reach `str()` in the
source on truthy inputs of interest; their rendering is abstracted. -/
def pyStr : Value → String
  | .none => "None"
  | .str s => s
  | .int n => toString n
  | .bool b => if b then "True" else "False"
  | .date y m d => toString y ++ "-" ++ toString m ++ "-" ++ toString d
  | .omit => "<OMIT>"
  | .dict _ => "<dict>"
  | .list _ => "<list>"

/-- First-match association-list lookup: Python dict key lookup (dicts
preserve insertion order and hold each key once). -/
def lookupField : List (String × Value) → String → Option Value
  | [], _ => Option.none
  | (k, v) :: rest, key => if k == key then some v else lookupField rest key

/-- Python `d[key] = v`: replace in place if present, else append. -/
def setField : List (String × Value) → String → Value → List (String × Value)
  | [], key, v => [(key, v)]
  | (k, w) :: rest, key, v =>
    if k == key then (key, v) :: rest else (k, w) :: setField rest key v

def Value.getKey : Value → String → Option Value
  | .dict fs, k => lookupField fs k
  | _, _ => Option.none

def Value.isOmit : Value → Bool
  | .omit => true
  | _ => false

/-- Python `==` against a string: strings compare by content, any other
type compares unequal to a string. -/
def pyEqStr (v : Value) (s : String) : Bool :=
  match v with
  | .str t => t == s
  | _ => false

/-- Substring test on character lists (Python `needle in haystack`). -/
def isSubstring (needle : List Char) : List Char → Bool
  | [] => needle.isEmpty
  | c :: rest => needle.isPrefixOf (c :: rest) || isSubstring needle rest

/-- Python `key in container`: dict key test, list membership, substring
test on strings; a `TypeError` (hard failure) otherwise. -/
def pyContains (container : Value) (key : String) : Except Err Bool :=
  match container with
  | .dict fs => .ok (fs.any (fun kv => kv.1 == key))
  | .list l => .ok (l.any (fun v => pyEqStr v key))
  | .str s => .ok (isSubstring key.data s.data)
  | _ => .error (.value "TypeError: argument is not iterable")

/-- Python `container[key]`: `KeyError`/`TypeError` are hard failures. -/
def pyGetItem (container : Value) (key : String) : Except Err Value :=
  match container with
  | .dict fs =>
    match lookupField fs key with
    | some v => .ok v
    | Option.none => .error (.value ("KeyError: " ++ key))
  | _ => .error (.value "TypeError: not subscriptable")

/-- Coercer `skip_falsy` (utils.py): `OMIT if not value else value`. -/
def skip_falsy (value : Value) : Except Err Value :=
  if falsy value then .ok .omit else .ok value

/-- Coercer `as_string` (utils.py): `value if not value else str(value)`. -/
def as_string (value : Value) : Except Err Value :=
  if falsy value then .ok value else .ok (.str (pyStr value))

/-- Coercer `insert_http` (utils.py): prefix `"https://"` onto a truthy value
that does not already start with `"http"`.  Calling `.startswith` on a truthy
non-string raises (hard failure). -/
def insert_http (value : Value) : Except Err Value :=
  if falsy value then .ok value
  else
    match value with
    | .str s => if pyStartsWith s "http" then .ok value else .ok (.str ("https://" ++ s))
    | _ => .error (.value "AttributeError: no attribute startswith")

/-- Coercer `required` (utils.py): raise `GlomError` on a falsy value. -/
def required (value : Value) : Except Err Value :=
  if falsy value then .error (.glom "Value was not defined") else .ok value

/-- Coercer factory `split` (utils.py).  All source call sites pass a
single-character separator (`" "` by default, `"."` in `email_metadata`). -/
def split (last : Bool) (spliton : Char) (value : Value) : Except Err Value :=
  if falsy value then .error (.glom "Value was not defined")
  else
    match value with
    | .str s =>
      let parts := pySplit spliton s
      if parts.length < 2 then .error (.glom "Value did not have 2 or more elements")
      else .ok (.str (if last then parts.getLastD "" else parts.headD ""))
    | _ => .error (.value "AttributeError: no attribute split")

def emailLocalCharOk (c : Char) : Bool :=
  c.isAlphanum || c == '.' || c == '_' || c == '-' || c == '+'

def emailDomainCharOk (c : Char) : Bool :=
  c.isAlphanum || c == '.' || c == '-'

/-- Modelled from the spec: the source calls the external `email_validator`
library (`validate_email(value, check_deliverability=False,
allow_empty_local=True)`), whose code is not part of this repository.  Per
the spec this is RFC email-syntax validation only, deliverability unchecked
and an empty local part permitted.  We model the syntactic core: exactly one
at-sign, a local part of ordinary address characters (possibly empty), and a
non-empty dotted domain of alphanumeric/hyphen labels.  On success returns
the local part and the (lower-cased) domain, as the library's parse does. -/
def validate_email (s : String) : Option (String × String) :=
  match pySplit '@' s with
  | [loc, dom] =>
    if loc.data.all emailLocalCharOk && !dom.data.isEmpty && dom.data.contains '.' &&
        dom.data.all emailDomainCharOk && !(dom.data.headD 'x' == '.') &&
        !(dom.data.getLastD 'x' == '.') then
      some (loc, pyLower dom)
    else Option.none
  | _ => Option.none

/-- Coercer factory `email_metadata` (utils.py): validate the email, then
return the domain, or the capitalized first/last `.`-delimited token of the
local part (via `split(False, ".")` / `split(True, ".")`).  An invalid email
raises `GlomError` (soft); the `GlomError` raised by `split` on a short local
part propagates unwrapped. -/
def email_metadata (selector : String) (value : Value) : Except Err Value :=
  if falsy value then .error (.glom "Value was not defined")
  else
    match value with
    | .str s =>
      match validate_email s with
      | some (loc, dom) =>
        if selector == "domain" then .ok (.str dom)
        else
          match split (!(selector == "first_name")) '.' (.str loc) with
          | .ok (.str tok) => .ok (.str (pyCapitalize tok))
          | .ok other => .ok other
          | .error e => .error e
      | Option.none => .error (.glom "The email address is not valid")
    | _ => .error (.value "TypeError: validate_email expects a string")

/-- `VALID_ANSWERS` (utils.py), an insertion-ordered mapping. -/
def VALID_ANSWERS : List (String × String) :=
  [("least", "Least"), ("minimal", "Minimal"), ("moderate", "Moderate"),
   ("significant", "Significant")]

/-- Coercer `validate_answer` (utils.py): falsy input omits; otherwise the
trimmed lower-cased text is prefix-matched against `VALID_ANSWERS` keys in
declaration order, the first match yielding its canonical label, no match
omitting.  Never a hard failure. -/
def validate_answer (value : Value) : Except Err Value :=
  if falsy value then .ok .omit
  else
    let normalized := pyLower (pyStrip (pyStr value))
    match VALID_ANSWERS.find? (fun kv => pyStartsWith normalized kv.1) with
    | some kv => .ok (.str kv.2)
    | Option.none => .ok .omit

/-- `VALID_ASSESSMENT_TIERS` (utils.py). -/
def VALID_ASSESSMENT_TIERS : List (String × Value) :=
  [("tier 1", .dict [("tier", .int 1), ("validated", .bool true)]),
   ("tier 2", .dict [("tier", .int 2), ("validated", .bool false)]),
   ("tier 2 validated", .dict [("tier", .int 2), ("validated", .bool true)]),
   ("tier 3", .dict [("tier", .int 3), ("validated", .bool false)]),
   ("no assessment", .none)]

/-- Coercer `valid_assessment_order` (utils.py): exact lookup of the trimmed
lower-cased text in `VALID_ASSESSMENT_TIERS`; falsy or unrecognized input
omits. -/
def valid_assessment_order (value : Value) : Except Err Value :=
  if falsy value then .ok .omit
  else
    let normalized := pyLower (pyStrip (pyStr value))
    match lookupField VALID_ASSESSMENT_TIERS normalized with
    | some v => .ok v
    | Option.none => .ok .omit

def isLeapYear (y : Nat) : Bool :=
  (y % 4 == 0 && y % 100 != 0) || y % 400 == 0

def daysInMonth (y m : Nat) : Nat :=
  if m == 2 then (if isLeapYear y then 29 else 28)
  else if m == 4 || m == 6 || m == 9 || m == 11 then 30
  else 31

def digitsToNat (cs : List Char) : Nat :=
  cs.foldl (fun acc c => acc * 10 + (c.toNat - 48)) 0

/-- Modelled from the Python standard library's
`datetime.strptime(value, "%Y-%m-%d")` (not repository code): an exactly
four-digit year (CPython's `%Y` matches `\d\d\d\d`, and `datetime`
further requires the year to be at least 1), a literal dash, a 1-2 digit
month, a dash, a 1-2 digit day, nothing trailing, with calendar-valid
month and day. -/
def parseDate (s : String) : Option (Nat × Nat × Nat) :=
  match pySplit '-' s with
  | [ys, ms, ds] =>
    if ys.data.all Char.isDigit && ms.data.all Char.isDigit && ds.data.all Char.isDigit &&
        decide (ys.data.length = 4) &&
        decide (1 ≤ ms.data.length) && decide (ms.data.length ≤ 2) &&
        decide (1 ≤ ds.data.length) && decide (ds.data.length ≤ 2) then
      let y := digitsToNat ys.data
      let m := digitsToNat ms.data
      let d := digitsToNat ds.data
      if decide (1 ≤ y) && decide (1 ≤ m) && decide (m ≤ 12) &&
          decide (1 ≤ d) && decide (d ≤ daysInMonth y m) then
        some (y, m, d)
      else Option.none
    else Option.none
  | _ => Option.none

/-- Coercer `date_or_none` (utils.py): `datetime.strptime(value, "%Y-%m-%d")
if value else None`.  A falsy value yields the real value `None`; a truthy
value that fails to parse raises `ValueError` — a hard failure, not a
`GlomError`, so fallback chains do not soften it. -/
def date_or_none (value : Value) : Except Err Value :=
  if falsy value then .ok .none
  else
    match value with
    | .str s =>
      match parseDate s with
      | some (y, m, d) => .ok (.date y m d)
      | Option.none => .error (.value "ValueError: time data does not match format")
    | _ => .error (.value "TypeError: strptime argument must be a string")

/-- Scan of `category_match`'s loop (utils.py): Python `v["category"]` on an
element without the key (or a non-mapping element) is a hard failure. -/
def categoryScan (category : String) : List Value → Except Err Value
  | [] => .ok .none
  | v :: rest =>
    match v with
    | .dict fs =>
      match lookupField fs "category" with
      | some c => if pyEqStr c category then .ok v else categoryScan category rest
      | Option.none => .error (.value "KeyError: category")
    | _ => .error (.value "TypeError: element is not subscriptable")

/-- Coercer factory `category_match` (utils.py): `None` on falsy input, else
the first element of the sequence whose `category` field equals `category`,
or `None` when none does.  Iterating a truthy non-sequence is a hard
failure, as is indexing an element that is not a mapping with the key. -/
def category_match (category : String) (value : Value) : Except Err Value :=
  if falsy value then .ok .none
  else
    match value with
    | .list elems => categoryScan category elems
    | _ => .error (.value "TypeError: value is not iterable")

/-- Schema nodes, modelled from the spec (§3): leaf paths, coercer stages,
chains (`done` ends a chain), ordered fallback alternatives (`alt` tries its
first branch, `dflt` is an exhausted chain's declared default — `none`
meaning the chain was declared with no default), and nested output mappings
(`dnil`/`dcons`).  `chainOf`, `coalesceOf` and `dictOf` below build these
from the list forms the Python schema literals use. -/
inductive Spec where
  | path (p : String)
  | coerce (f : Value → Except Err Value)
  | done
  | seq (first rest : Spec)
  | alt (first rest : Spec)
  | dflt (d : Option Value)
  | dnil
  | dcons (k : String) (s : Spec) (rest : Spec)

/-- Modelled from the spec (§3, §4.3, §4.4): the `glom` schema evaluator.
Path lookups that miss signal a soft failure; a chain applies stages left to
right, short-circuiting on failure or on the Omission Signal; a fallback
chain returns the first alternative producing a non-failing value, soft
failures moving to the next alternative while hard failures propagate, an
exhausted chain yielding its default (the Omission Signal when declared with
no default); a mapping node evaluates every child against the same target,
dropping keys whose child evaluates to the Omission Signal. -/
def eval : Spec → Value → Except Err Value
  | .path p, t =>
    match t.getKey p with
    | some v => .ok v
    | Option.none => .error (.glom ("could not access path " ++ p))
  | .coerce f, t => f t
  | .done, t => .ok t
  | .seq s rest, t =>
    match eval s t with
    | .error e => .error e
    | .ok v => if v.isOmit then .ok .omit else eval rest v
  | .alt s rest, t =>
    match eval s t with
    | .ok v => .ok v
    | .error (.glom _) => eval rest t
    | .error (.value m) => .error (.value m)
  | .dflt (some d), _ => .ok d
  | .dflt Option.none, _ => .ok .omit
  | .dnil, _ => .ok (.dict [])
  | .dcons k s rest, t =>
    match eval s t with
    | .error e => .error e
    | .ok v =>
      if v.isOmit then eval rest t
      else
        match eval rest t with
        | .error e => .error e
        | .ok (.dict fs) => .ok (.dict ((k, v) :: fs))
        | .ok _ => .error (.value "not a mapping")

/-- A Python tuple spec `(s1, s2, ...)` as a chain. -/
def chainOf : List Spec → Spec
  | [] => .done
  | s :: rest => .seq s (chainOf rest)

/-- A Python `Coalesce(s1, s2, ..., default=d)` spec; `Option.none` for a
`Coalesce` declared with no default. -/
def coalesceOf : List Spec → Option Value → Spec
  | [], d => .dflt d
  | s :: rest, d => .alt s (coalesceOf rest d)

/-- A Python dict spec as a mapping node. -/
def dictOf : List (String × Spec) → Spec
  | [] => .dnil
  | (k, s) :: rest => .dcons k s (dictOf rest)

/-- The raw-record keys a spec reads: every path it can resolve against the
root target.  Later chain stages read only values derived from earlier
stages, so only a chain's first stage reads the root. -/
def specKeys : Spec → List String
  | .path p => [p]
  | .coerce _ => []
  | .done => []
  | .seq s _ => specKeys s
  | .alt s rest => specKeys s ++ specKeys rest
  | .dflt _ => []
  | .dnil => []
  | .dcons _ s rest => specKeys s ++ specKeys rest

/-- The `Coalesce((key, skip_falsy), default=OMIT)` pattern pervading
`COMPANY_SCHEMA` (config.py). -/
def skipField (key : String) : Spec :=
  coalesceOf [chainOf [.path key, .coerce skip_falsy]] (some .omit)

/-- The `url` field of `COMPANY_SCHEMA` (config.py): prefer the sheet's
company domain, fall back to the contact email's domain. -/
def URL_SPEC : Spec :=
  coalesceOf
    [chainOf
      [coalesceOf
        [chainOf [.path "company_url", .coerce required],
         chainOf [.path "third_party_contact_email", .coerce (email_metadata "domain")]]
        Option.none,
       .coerce required,
       .coerce insert_http]]
    (some .omit)

/-- The contact first-name fallback chain of `COMPANY_SCHEMA` (config.py):
explicit first-name field, then the combined name split on whitespace, then
the email's local part. -/
def FIRST_NAME_COALESCE : Spec :=
  coalesceOf
    [chainOf [.path "third_party_contact_first_name", .coerce required],
     chainOf [.path "third_party_contact_name", .coerce (split false ' '), .coerce required],
     chainOf [.path "third_party_contact_email", .coerce (email_metadata "first_name")]]
    (some .omit)

/-- The contact last-name fallback chain of `COMPANY_SCHEMA` (config.py). -/
def LAST_NAME_COALESCE : Spec :=
  coalesceOf
    [chainOf [.path "third_party_contact_last_name", .coerce required],
     chainOf [.path "third_party_contact_name", .coerce (split true ' '), .coerce required],
     chainOf [.path "third_party_contact_email", .coerce (email_metadata "last_name")]]
    (some .omit)

/-- The `address` sub-mapping's fields (config.py). -/
def ADDRESS_FIELDS : List (String × Spec) :=
  [("city", skipField "address_city"),
   ("country", skipField "address_country")]

/-- The `address` field of `COMPANY_SCHEMA` (config.py). -/
def ADDRESS_SPEC : Spec :=
  chainOf [dictOf ADDRESS_FIELDS, .coerce skip_falsy]

/-- The `third_party_contact` field of `COMPANY_SCHEMA` (config.py). -/
def CONTACT_SPEC : Spec :=
  chainOf
    [dictOf
      [("first_name", chainOf [FIRST_NAME_COALESCE, .coerce skip_falsy]),
       ("last_name", chainOf [LAST_NAME_COALESCE, .coerce skip_falsy]),
       ("email", skipField "third_party_contact_email"),
       ("phone", coalesceOf
          [chainOf [.path "third_party_contact_phone", .coerce as_string, .coerce skip_falsy]]
          (some .omit))],
     .coerce skip_falsy]

/-- The `third_party_scoping` field of `COMPANY_SCHEMA` (config.py). -/
def SCOPING_SPEC : Spec :=
  chainOf
    [dictOf
      [("digital_identities", coalesceOf [chainOf [.path "profile_digital_identities", .coerce validate_answer]] (some .omit)),
       ("people", coalesceOf [chainOf [.path "profile_people", .coerce validate_answer]] (some .omit)),
       ("data", coalesceOf [chainOf [.path "profile_data", .coerce validate_answer]] (some .omit)),
       ("applications", coalesceOf [chainOf [.path "profile_applications", .coerce validate_answer]] (some .omit)),
       ("devices", coalesceOf [chainOf [.path "profile_devices", .coerce validate_answer]] (some .omit)),
       ("networks", coalesceOf [chainOf [.path "profile_networks", .coerce validate_answer]] (some .omit)),
       ("facilities", coalesceOf [chainOf [.path "profile_facilities", .coerce validate_answer]] (some .omit)),
       ("business_process", coalesceOf [chainOf [.path "profile_business_process", .coerce validate_answer]] (some .omit))],
     .coerce skip_falsy]

/-- The `custom_metadata.internal` sub-mapping's fields (config.py).  Note:
the source extracts `location` from the `internal_description` raw field,
exactly as written at config.py line 207. -/
def INTERNAL_FIELDS : List (String × Spec) :=
  [("owner", skipField "internal_vendor_owner"),
   ("description", skipField "internal_description"),
   ("location", skipField "internal_description")]

/-- The `custom_metadata.internal` sub-mapping of `COMPANY_SCHEMA`
(config.py). -/
def INTERNAL_SPEC : Spec :=
  chainOf [dictOf INTERNAL_FIELDS, .coerce skip_falsy]

/-- The `custom_metadata.cyber_classification` sub-mapping of
`COMPANY_SCHEMA` (config.py). -/
def CYBER_SPEC : Spec :=
  chainOf
    [dictOf
      [("critical_or_support", skipField "meta_is_critical_or_support"),
       ("rto", skipField "meta_rto"),
       ("data_sensitivity", skipField "meta_data_sensitivity"),
       ("compliance", skipField "meta_compliance"),
       ("tech_risk", skipField "meta_tech_risk"),
       ("influence", skipField "meta_influence")],
     .coerce skip_falsy]

/-- The `custom_metadata` sub-mapping's fields (config.py). -/
def CUSTOM_METADATA_FIELDS : List (String × Spec) :=
  [("internal", INTERNAL_SPEC),
   ("cyber_classification", CYBER_SPEC)]

/-- The `custom_metadata` field of `COMPANY_SCHEMA` (config.py). -/
def CUSTOM_METADATA_SPEC : Spec :=
  chainOf [dictOf CUSTOM_METADATA_FIELDS, .coerce skip_falsy]

/-- The output fields of `COMPANY_SCHEMA` (config.py), in declaration order. -/
def COMPANY_FIELDS : List (String × Spec) :=
  [("name", .path "company_name"),
   ("url", URL_SPEC),
   ("custom_id", chainOf [.path "custom_id", .coerce as_string]),
   ("ingest_date", chainOf [coalesceOf [.path "ingest_date"] (some .none), .coerce date_or_none]),
   ("address", ADDRESS_SPEC),
   ("order_info", coalesceOf [chainOf [.path "assessment_order", .coerce valid_assessment_order]] (some .omit)),
   ("third_party_contact", CONTACT_SPEC),
   ("third_party_scoping", SCOPING_SPEC),
   ("custom_metadata", CUSTOM_METADATA_SPEC)]

/-- `COMPANY_SCHEMA` (config.py): the vendor-intake schema mapping a
canonical spreadsheet row to a normalized vendor record. -/
def COMPANY_SCHEMA : Spec :=
  dictOf COMPANY_FIELDS

/-- The `if`/`elif` accuracy check of `normalize_vendor` (utils.py): the flag
is false unless `"url" in vendor`, `"address" in vendor`, and both
`"city" in vendor["address"]` and `"country" in vendor["address"]` hold. -/
def vendor_flag (vendor : Value) : Except Err Bool :=
  match pyContains vendor "url" with
  | .error e => .error e
  | .ok hasUrl =>
    if !hasUrl then .ok false
    else
      match pyContains vendor "address" with
      | .error e => .error e
      | .ok hasAddress =>
        if !hasAddress then .ok false
        else
          match pyGetItem vendor "address" with
          | .error e => .error e
          | .ok address =>
            match pyContains address "city" with
            | .error e => .error e
            | .ok hasCity =>
              if !hasCity then .ok false
              else pyContains address "country"

/-- `normalize_vendor` (utils.py): evaluate the schema over the canonical
record, then store the derived `record_has_url_and_address` flag on the
record.  The smartsheet row-object to canonical-record translation
(`row_to_vendor`, pure I/O plumbing over the external smartsheet cell
objects) is elided: `row` here is the already-mapped record. -/
def normalize_vendor (row : Value) (spec : Spec) : Except Err Value :=
  match eval spec row with
  | .error e => .error e
  | .ok vendor =>
    match vendor_flag vendor with
    | .error e => .error e
    | .ok flag =>
      match vendor with
      | .dict fs => .ok (.dict (setField fs "record_has_url_and_address" (.bool flag)))
      | _ => .error (.value "TypeError: item assignment")

theorem any_key_eq_lookup_isSome (fs : List (String × Value)) (k : String) :
    (fs.any (fun kv => kv.1 == k)) = (lookupField fs k).isSome := by
  induction fs with
  | nil => rfl
  | cons head rest ih =>
    obtain ⟨k0, v0⟩ := head
    by_cases h : (k0 == k) = true
    · simp [lookupField, h]
    · simp only [List.any_cons, lookupField, h, Bool.false_or, if_false]
      exact ih

theorem lookupField_setField_self (fs : List (String × Value)) (k : String) (v : Value) :
    lookupField (setField fs k v) k = some v := by
  induction fs with
  | nil => simp [setField, lookupField]
  | cons head rest ih =>
    obtain ⟨k0, v0⟩ := head
    by_cases h : (k0 == k) = true
    · simp [setField, h, lookupField]
    · simp [setField, h, lookupField, ih]

theorem lookupField_setField_other (fs : List (String × Value)) (k k2 : String) (v : Value)
    (h : (k == k2) = false) :
    lookupField (setField fs k v) k2 = lookupField fs k2 := by
  induction fs with
  | nil => simp [setField, lookupField, h]
  | cons head rest ih =>
    obtain ⟨k0, v0⟩ := head
    by_cases h0 : (k0 == k) = true
    · have : k0 = k := by simpa using h0
      subst this
      simp [setField, lookupField, h]
    · simp [setField, h0, lookupField, ih]

theorem eval_coalesceOf_first_ok (s : Spec) (rest : List Spec) (d : Option Value) (t v : Value)
    (h : eval s t = .ok v) : eval (coalesceOf (s :: rest) d) t = .ok v := by
  simp [coalesceOf, eval, h]

theorem eval_coalesceOf_first_soft (s : Spec) (rest : List Spec) (d : Option Value) (t : Value)
    (m : String) (h : eval s t = .error (.glom m)) :
    eval (coalesceOf (s :: rest) d) t = eval (coalesceOf rest d) t := by
  simp [coalesceOf, eval, h]

theorem eval_coalesceOf_exhausted (d : Value) (t : Value) :
    eval (coalesceOf [] (some d)) t = .ok d := rfl

theorem eval_coalesceOf_exhausted_no_default (t : Value) :
    eval (coalesceOf [] Option.none) t = .ok .omit := rfl

theorem eval_dictOf_ok (fields : List (String × Spec)) (t v : Value)
    (h : eval (dictOf fields) t = .ok v) : ∃ fs, v = .dict fs := by
  induction fields generalizing v with
  | nil =>
    simp only [dictOf, eval] at h
    exact ⟨[], (Except.ok.inj h).symm⟩
  | cons head rest ih =>
    obtain ⟨k, s⟩ := head
    simp only [dictOf, eval] at h
    cases h0 : eval s t with
    | error e => rw [h0] at h; dsimp only at h; cases h
    | ok v0 =>
      rw [h0] at h
      dsimp only at h
      by_cases ho : v0.isOmit = true
      · rw [if_pos ho] at h
        exact ih _ h
      · rw [if_neg ho] at h
        cases h1 : eval (dictOf rest) t with
        | error e => rw [h1] at h; cases h
        | ok w =>
          obtain ⟨fs, rfl⟩ := ih _ h1
          rw [h1] at h
          exact ⟨_, (Except.ok.inj h).symm⟩

theorem eval_dictOf_keys (fields : List (String × Spec)) (t : Value)
    (fs : List (String × Value)) (h : eval (dictOf fields) t = .ok (.dict fs)) :
    ∀ k, (lookupField fs k).isSome = true → k ∈ fields.map Prod.fst := by
  induction fields generalizing fs with
  | nil =>
    simp only [dictOf, eval] at h
    cases Except.ok.inj h
    intro k hk
    cases hk
  | cons head rest ih =>
    obtain ⟨k0, s⟩ := head
    simp only [dictOf, eval] at h
    cases h0 : eval s t with
    | error e => rw [h0] at h; dsimp only at h; cases h
    | ok v0 =>
      rw [h0] at h
      dsimp only at h
      by_cases ho : v0.isOmit = true
      · rw [if_pos ho] at h
        intro k hk
        exact List.mem_cons_of_mem _ (ih _ h k hk)
      · rw [if_neg ho] at h
        cases h1 : eval (dictOf rest) t with
        | error e => rw [h1] at h; cases h
        | ok w =>
          obtain ⟨fs2, rfl⟩ := eval_dictOf_ok rest t w h1
          rw [h1] at h
          cases Except.ok.inj h
          intro k hk
          by_cases hke : (k0 == k) = true
          · have : k0 = k := by simpa using hke
            subst this
            exact List.mem_cons_self _ _
          · simp only [lookupField, hke, if_false] at hk
            exact List.mem_cons_of_mem _ (ih _ h1 k hk)

theorem eval_dictOf_lookup (fields : List (String × Spec)) (t : Value)
    (fs : List (String × Value)) (k : String) (s : Spec)
    (hnd : (fields.map Prod.fst).Nodup) (hmem : (k, s) ∈ fields)
    (h : eval (dictOf fields) t = .ok (.dict fs)) :
    ∃ v, eval s t = .ok v ∧
      lookupField fs k = (if v.isOmit then Option.none else some v) := by
  induction fields generalizing fs with
  | nil => cases hmem
  | cons head rest ih =>
    obtain ⟨k0, s0⟩ := head
    simp only [List.map_cons, List.nodup_cons] at hnd
    simp only [dictOf, eval] at h
    cases h0 : eval s0 t with
    | error e => rw [h0] at h; dsimp only at h; cases h
    | ok v0 =>
      rw [h0] at h
      dsimp only at h
      by_cases ho : v0.isOmit = true
      · rw [if_pos ho] at h
        rcases List.mem_cons.mp hmem with heq | hmem2
        · cases heq
          refine ⟨v0, h0, ?_⟩
          rw [if_pos ho]
          cases hl : lookupField fs k with
          | none => rfl
          | some w =>
            have : k ∈ rest.map Prod.fst :=
              eval_dictOf_keys rest t fs h k (by rw [hl]; rfl)
            exact absurd this hnd.1
        · exact ih _ hnd.2 hmem2 h
      · rw [if_neg ho] at h
        cases h1 : eval (dictOf rest) t with
        | error e => rw [h1] at h; cases h
        | ok w =>
          obtain ⟨fs2, rfl⟩ := eval_dictOf_ok rest t w h1
          rw [h1] at h
          cases Except.ok.inj h
          rcases List.mem_cons.mp hmem with heq | hmem2
          · cases heq
            refine ⟨v0, h0, ?_⟩
            rw [if_neg ho]
            simp [lookupField]
          · have hk : k ∈ rest.map Prod.fst :=
              List.mem_map_of_mem Prod.fst hmem2
            have hne : (k0 == k) = false := by
              by_contra hc
              have : (k0 == k) = true := by
                cases hb : (k0 == k)
                · exact absurd hb hc
                · rfl
              have : k0 = k := by simpa using this
              subst this
              exact hnd.1 hk
            obtain ⟨v, hv, hl⟩ := ih _ hnd.2 hmem2 h1
            refine ⟨v, hv, ?_⟩
            simp only [lookupField, hne, if_false]
            exact hl

theorem eval_dictOf_mem_error (fields : List (String × Spec)) (t : Value) (k : String)
    (s : Spec) (e : Err) (hmem : (k, s) ∈ fields) (herr : eval s t = .error e) :
    ∃ e2, eval (dictOf fields) t = .error e2 := by
  induction fields with
  | nil => cases hmem
  | cons head rest ih =>
    obtain ⟨k0, s0⟩ := head
    rcases List.mem_cons.mp hmem with heq | hmem2
    · cases heq
      exact ⟨e, by simp [dictOf, eval, herr]⟩
    · simp only [dictOf, eval]
      cases h0 : eval s0 t with
      | error e0 => exact ⟨e0, rfl⟩
      | ok v0 =>
        obtain ⟨e2, h2⟩ := ih hmem2
        by_cases ho : v0.isOmit = true
        · refine ⟨e2, ?_⟩
          dsimp only
          rw [if_pos ho]
          exact h2
        · refine ⟨e2, ?_⟩
          dsimp only
          rw [if_neg ho, h2]


theorem eval_alt_cases (a b : Spec) (t v : Value) (h : eval (.alt a b) t = .ok v) :
    eval a t = .ok v ∨ (∃ m, eval a t = .error (.glom m) ∧ eval b t = .ok v) := by
  simp only [eval] at h
  cases ha : eval a t with
  | ok w =>
    rw [ha] at h
    dsimp only at h
    exact Or.inl h
  | error e =>
    rw [ha] at h
    cases e with
    | glom m =>
      dsimp only at h
      exact Or.inr ⟨m, rfl, h⟩
    | value m =>
      dsimp only at h
      cases h

theorem eval_seq_cases (a b : Spec) (t v : Value) (h : eval (.seq a b) t = .ok v) :
    ∃ w, eval a t = .ok w ∧
      ((w.isOmit = true ∧ v = .omit) ∨ (w.isOmit = false ∧ eval b w = .ok v)) := by
  simp only [eval] at h
  cases ha : eval a t with
  | error e =>
    rw [ha] at h
    dsimp only at h
    cases h
  | ok w =>
    rw [ha] at h
    dsimp only at h
    by_cases ho : w.isOmit = true
    · rw [if_pos ho] at h
      exact ⟨w, rfl, Or.inl ⟨ho, (Except.ok.inj h).symm⟩⟩
    · rw [if_neg ho] at h
      exact ⟨w, rfl, Or.inr ⟨by simpa using ho, h⟩⟩

theorem eval_dflt_some (d t v : Value) (h : eval (.dflt (some d)) t = .ok v) : v = d :=
  (Except.ok.inj h).symm

theorem eval_done_ok (t v : Value) (h : eval .done t = .ok v) : v = t :=
  (Except.ok.inj h).symm

theorem required_ok (v w : Value) (h : required v = .ok w) : w = v ∧ falsy v = false := by
  by_cases hf : falsy v = true
  · simp [required, hf] at h
  · rw [required, if_neg hf] at h
    exact ⟨(Except.ok.inj h).symm, by simpa using hf⟩

theorem skip_falsy_ok (v w : Value) (h : skip_falsy v = .ok w) :
    (w = .omit ∧ falsy v = true) ∨ (w = v ∧ falsy v = false) := by
  by_cases hf : falsy v = true
  · rw [skip_falsy, if_pos hf] at h
    exact Or.inl ⟨(Except.ok.inj h).symm, hf⟩
  · rw [skip_falsy, if_neg hf] at h
    exact Or.inr ⟨(Except.ok.inj h).symm, by simpa using hf⟩

theorem insert_http_ok_nonfalsy (v w : Value) (hf : falsy v = false)
    (h : insert_http v = .ok w) : falsy w = false := by
  rcases v with _ | s | n | b | ⟨y, m, d⟩ | _ | fs | l
  · simp [falsy] at hf
  · rw [insert_http, if_neg (by simp [hf])] at h
    try dsimp only at h
    by_cases hs : pyStartsWith s "http" = true
    · rw [if_pos hs] at h
      cases Except.ok.inj h
      exact hf
    · rw [if_neg hs] at h
      cases Except.ok.inj h
      obtain ⟨cs⟩ := s
      rfl
  · rw [insert_http, if_neg (by simp [hf])] at h
    all_goals try dsimp only at h
    all_goals first
    | cases h
    | (intro t ht; cases ht)
  · rw [insert_http, if_neg (by simp [hf])] at h
    all_goals try dsimp only at h
    all_goals first
    | cases h
    | (intro t ht; cases ht)
  · rw [insert_http, if_neg (by simp [hf])] at h
    all_goals try dsimp only at h
    all_goals first
    | cases h
    | (intro t ht; cases ht)
  · rw [insert_http, if_neg (by simp [hf])] at h
    all_goals try dsimp only at h
    all_goals first
    | cases h
    | (intro t ht; cases ht)
  · rw [insert_http, if_neg (by simp [hf])] at h
    all_goals try dsimp only at h
    all_goals first
    | cases h
    | (intro t ht; cases ht)
  · rw [insert_http, if_neg (by simp [hf])] at h
    all_goals try dsimp only at h
    all_goals first
    | cases h
    | (intro t ht; cases ht)

theorem eval_URL_SPEC_ok (t v : Value) (h : eval URL_SPEC t = .ok v) :
    v.isOmit = true ∨ falsy v = false := by
  simp only [URL_SPEC, coalesceOf, chainOf] at h
  rcases eval_alt_cases _ _ _ _ h with hbig | ⟨m, _, hdef⟩
  · obtain ⟨w1, _, hrest⟩ := eval_seq_cases _ _ _ _ hbig
    rcases hrest with ⟨_, rfl⟩ | ⟨ho1, hrest2⟩
    · exact Or.inl rfl
    · obtain ⟨w2, hw2, hrest3⟩ := eval_seq_cases _ _ _ _ hrest2
      obtain ⟨rfl, hfw1⟩ := required_ok _ _ hw2
      rcases hrest3 with ⟨_, rfl⟩ | ⟨ho2, hrest4⟩
      · exact Or.inl rfl
      · obtain ⟨w3, hw3, hrest5⟩ := eval_seq_cases _ _ _ _ hrest4
        have hhttp := insert_http_ok_nonfalsy _ _ hfw1 hw3
        rcases hrest5 with ⟨_, rfl⟩ | ⟨ho3, hdone⟩
        · exact Or.inl rfl
        · rw [eval_done_ok _ _ hdone]
          exact Or.inr hhttp
  · rw [eval_dflt_some _ _ _ hdef]
    exact Or.inl rfl

theorem eval_skipdict_ok (fields : List (String × Spec)) (t v : Value)
    (h : eval (chainOf [dictOf fields, .coerce skip_falsy]) t = .ok v) :
    v.isOmit = true ∨ ∃ fs, v = .dict fs ∧ eval (dictOf fields) t = .ok (.dict fs) := by
  simp only [chainOf] at h
  obtain ⟨w, hw, hrest⟩ := eval_seq_cases _ _ _ _ h
  obtain ⟨fs, rfl⟩ := eval_dictOf_ok _ _ _ hw
  rcases hrest with ⟨_, rfl⟩ | ⟨ho1, hrest2⟩
  · exact Or.inl rfl
  · obtain ⟨w2, hw2, hrest3⟩ := eval_seq_cases _ _ _ _ hrest2
    rcases skip_falsy_ok _ _ hw2 with ⟨rfl, _⟩ | ⟨rfl, _⟩
    · rcases hrest3 with ⟨_, rfl⟩ | ⟨ho2, _⟩
      · exact Or.inl rfl
      · simp [Value.isOmit] at ho2
    · rcases hrest3 with ⟨ho2, rfl⟩ | ⟨_, hdone⟩
      · exact Or.inl rfl
      · rw [eval_done_ok _ _ hdone]
        exact Or.inr ⟨fs, rfl, hw⟩

mutual
def omitFree : Value → Bool
  | .omit => false
  | .dict fs => omitFreePairs fs
  | .list l => omitFreeElems l
  | _ => true
def omitFreePairs : List (String × Value) → Bool
  | [] => true
  | (_, v) :: rest => omitFree v && omitFreePairs rest
def omitFreeElems : List Value → Bool
  | [] => true
  | v :: rest => omitFree v && omitFreeElems rest
end

theorem omitFree_lookupField (fs : List (String × Value)) (k : String) (v : Value)
    (hf : omitFreePairs fs = true) (h : lookupField fs k = some v) : omitFree v = true := by
  induction fs with
  | nil => cases h
  | cons head rest ih =>
    obtain ⟨k0, v0⟩ := head
    simp only [omitFreePairs, Bool.and_eq_true] at hf
    simp only [lookupField] at h
    by_cases hk : (k0 == k) = true
    · rw [if_pos hk] at h
      cases Option.some.inj h
      exact hf.1
    · rw [if_neg hk] at h
      exact ih hf.2 h

theorem omitFreePairs_setField (fs : List (String × Value)) (k : String) (v : Value)
    (hf : omitFreePairs fs = true) (hv : omitFree v = true) :
    omitFreePairs (setField fs k v) = true := by
  induction fs with
  | nil => simp [setField, omitFreePairs, hv]
  | cons head rest ih =>
    obtain ⟨k0, v0⟩ := head
    simp only [omitFreePairs, Bool.and_eq_true] at hf
    by_cases hk : (k0 == k) = true
    · simp [setField, hk, omitFreePairs, hv, hf.2]
    · simp [setField, hk, omitFreePairs, hf.1, ih hf.2]

/-- A coercer that, fed a value free of the Omission Signal, returns either
exactly the sentinel or another sentinel-free value. -/
def goodCoercer (f : Value → Except Err Value) : Prop :=
  ∀ v w, omitFree v = true → f v = .ok w → w = .omit ∨ omitFree w = true

/-- Every coercer and every declared default in the spec is `goodCoercer`-like. -/
def goodSpec : Spec → Prop
  | .path _ => True
  | .coerce f => goodCoercer f
  | .done => True
  | .seq a b => goodSpec a ∧ goodSpec b
  | .alt a b => goodSpec a ∧ goodSpec b
  | .dflt (some d) => d = .omit ∨ omitFree d = true
  | .dflt Option.none => True
  | .dnil => True
  | .dcons _ s rest => goodSpec s ∧ goodSpec rest

theorem eval_omitFree (s : Spec) (t v : Value) (hg : goodSpec s) (ht : omitFree t = true)
    (h : eval s t = .ok v) : v = .omit ∨ omitFree v = true := by
  induction s generalizing t v with
  | path p =>
    rcases t with _ | _ | _ | _ | _ | _ | fs | _
    case dict =>
      simp only [eval, Value.getKey] at h
      cases hk : lookupField fs p with
      | none =>
        rw [hk] at h
        dsimp only at h
        cases h
      | some w =>
        rw [hk] at h
        dsimp only at h
        cases Except.ok.inj h
        have hfs : omitFreePairs fs = true := by simpa [omitFree] using ht
        exact Or.inr (omitFree_lookupField fs p _ hfs hk)
    all_goals simp [eval, Value.getKey] at h
  | coerce f => exact hg t v ht h
  | done =>
    cases Except.ok.inj h
    exact Or.inr ht
  | seq a b iha ihb =>
    obtain ⟨w, hw, hrest⟩ := eval_seq_cases _ _ _ _ h
    rcases hrest with ⟨_, rfl⟩ | ⟨ho, hb⟩
    · exact Or.inl rfl
    · rcases iha _ _ hg.1 ht hw with rfl | hwf
      · simp [Value.isOmit] at ho
      · exact ihb _ _ hg.2 hwf hb
  | alt a b iha ihb =>
    rcases eval_alt_cases _ _ _ _ h with ha | ⟨m, _, hb⟩
    · exact iha _ _ hg.1 ht ha
    · exact ihb _ _ hg.2 ht hb
  | dflt d =>
    rcases d with _ | dv
    · simp only [eval] at h
      cases Except.ok.inj h
      exact Or.inl rfl
    · simp only [eval] at h
      cases Except.ok.inj h
      exact hg
  | dnil =>
    simp only [eval] at h
    cases Except.ok.inj h
    exact Or.inr rfl
  | dcons k a b iha ihb =>
    simp only [eval] at h
    cases h0 : eval a t with
    | error e =>
      rw [h0] at h
      try dsimp only at h
      cases h
    | ok w =>
      rw [h0] at h
      try dsimp only at h
      by_cases ho : w.isOmit = true
      · rw [if_pos ho] at h
        exact ihb _ _ hg.2 ht h
      · rw [if_neg ho] at h
        cases h1 : eval b t with
        | error e =>
          rw [h1] at h
          try dsimp only at h
          cases h
        | ok u =>
          rw [h1] at h
          try dsimp only at h
          rcases iha _ _ hg.1 ht h0 with rfl | hwf
          · simp [Value.isOmit] at ho
          · rcases u with _ | _ | _ | _ | _ | _ | fs | _
            · dsimp only at h; cases h
            · dsimp only at h; cases h
            · dsimp only at h; cases h
            · dsimp only at h; cases h
            · dsimp only at h; cases h
            · dsimp only at h; cases h
            · try dsimp only at h
              rcases ihb _ _ hg.2 ht h1 with heq | huf
              · cases heq
              · cases Except.ok.inj h
                have hfs : omitFreePairs fs = true := by simpa [omitFree] using huf
                exact Or.inr (by simp [omitFree, omitFreePairs, hwf, hfs])
            · dsimp only at h; cases h

theorem required_good : goodCoercer required := by
  intro v w ht h
  obtain ⟨rfl, _⟩ := required_ok _ _ h
  exact Or.inr ht

theorem skip_falsy_good : goodCoercer skip_falsy := by
  intro v w ht h
  rcases skip_falsy_ok _ _ h with ⟨rfl, _⟩ | ⟨rfl, _⟩
  · exact Or.inl rfl
  · exact Or.inr ht

theorem as_string_good : goodCoercer as_string := by
  intro v w ht h
  rw [as_string] at h
  by_cases hf : falsy v = true
  · rw [if_pos hf] at h
    cases Except.ok.inj h
    exact Or.inr ht
  · rw [if_neg hf] at h
    cases Except.ok.inj h
    exact Or.inr rfl

theorem insert_http_good : goodCoercer insert_http := by
  intro v w ht h
  unfold insert_http at h
  split at h
  · cases Except.ok.inj h
    exact Or.inr ht
  · split at h
    · split at h
      · cases Except.ok.inj h
        exact Or.inr ht
      · cases Except.ok.inj h
        exact Or.inr rfl
    · cases h

theorem split_ok_str (last : Bool) (spliton : Char) (v w : Value)
    (h : split last spliton v = .ok w) : ∃ s, w = .str s := by
  unfold split at h
  split at h
  · cases h
  · split at h
    · try dsimp only at h
      split at h
      · cases h
      · exact ⟨_, (Except.ok.inj h).symm⟩
    · cases h

theorem split_good (last : Bool) (spliton : Char) : goodCoercer (split last spliton) := by
  intro v w ht h
  obtain ⟨s, rfl⟩ := split_ok_str _ _ _ _ h
  exact Or.inr rfl

theorem email_metadata_ok_str (selector : String) (v w : Value)
    (h : email_metadata selector v = .ok w) : ∃ s, w = .str s := by
  unfold email_metadata at h
  split at h
  · cases h
  · split at h
    · split at h
      · split at h
        · exact ⟨_, (Except.ok.inj h).symm⟩
        · split at h
          · exact ⟨_, (Except.ok.inj h).symm⟩
          · rename_i other heq
            obtain ⟨s2, rfl⟩ := split_ok_str _ _ _ _ heq
            exact ⟨_, (Except.ok.inj h).symm⟩
          · cases h
      · cases h
    · cases h

theorem email_metadata_good (selector : String) : goodCoercer (email_metadata selector) := by
  intro v w ht h
  obtain ⟨s, rfl⟩ := email_metadata_ok_str _ _ _ h
  exact Or.inr rfl

theorem validate_answer_good : goodCoercer validate_answer := by
  intro v w ht h
  rw [validate_answer] at h
  by_cases hf : falsy v = true
  · rw [if_pos hf] at h
    cases Except.ok.inj h
    exact Or.inl rfl
  · rw [if_neg hf] at h
    dsimp only at h
    cases hfind : (VALID_ANSWERS.find? (fun kv => pyStartsWith (pyLower (pyStrip (pyStr v))) kv.1)) with
    | none =>
      rw [hfind] at h
      dsimp only at h
      cases Except.ok.inj h
      exact Or.inl rfl
    | some kv =>
      rw [hfind] at h
      dsimp only at h
      cases Except.ok.inj h
      exact Or.inr rfl

theorem lookup_tiers_omitFree (s : String) (w : Value)
    (h : lookupField VALID_ASSESSMENT_TIERS s = some w) : omitFree w = true := by
  simp only [VALID_ASSESSMENT_TIERS, lookupField] at h
  split_ifs at h <;> first
  | (cases Option.some.inj h; rfl)
  | cases h

theorem valid_assessment_order_good : goodCoercer valid_assessment_order := by
  intro v w ht h
  rw [valid_assessment_order] at h
  by_cases hf : falsy v = true
  · rw [if_pos hf] at h
    cases Except.ok.inj h
    exact Or.inl rfl
  · rw [if_neg hf] at h
    dsimp only at h
    cases hl : lookupField VALID_ASSESSMENT_TIERS (pyLower (pyStrip (pyStr v))) with
    | none =>
      rw [hl] at h
      dsimp only at h
      cases Except.ok.inj h
      exact Or.inl rfl
    | some u =>
      rw [hl] at h
      dsimp only at h
      cases Except.ok.inj h
      exact Or.inr (lookup_tiers_omitFree _ _ hl)

theorem date_or_none_good : goodCoercer date_or_none := by
  intro v w ht h
  unfold date_or_none at h
  split at h
  · cases Except.ok.inj h
    exact Or.inr rfl
  · split at h
    · split at h
      · cases Except.ok.inj h
        exact Or.inr rfl
      · cases h
    · cases h

theorem goodSpec_chainOf (l : List Spec) (hl : ∀ x ∈ l, goodSpec x) :
    goodSpec (chainOf l) := by
  induction l with
  | nil => exact trivial
  | cons s rest ih =>
    exact ⟨hl s (List.mem_cons_self _ _), ih (fun x hx => hl x (List.mem_cons_of_mem _ hx))⟩

theorem goodSpec_coalesceOf (l : List Spec) (d : Option Value) (hl : ∀ x ∈ l, goodSpec x)
    (hd : goodSpec (.dflt d)) : goodSpec (coalesceOf l d) := by
  induction l with
  | nil => exact hd
  | cons s rest ih =>
    exact ⟨hl s (List.mem_cons_self _ _), ih (fun x hx => hl x (List.mem_cons_of_mem _ hx))⟩

theorem goodSpec_dictOf (l : List (String × Spec)) (hl : ∀ p ∈ l, goodSpec p.2) :
    goodSpec (dictOf l) := by
  induction l with
  | nil => exact trivial
  | cons p rest ih =>
    obtain ⟨k, s⟩ := p
    exact ⟨hl (k, s) (List.mem_cons_self _ _), ih (fun x hx => hl x (List.mem_cons_of_mem _ hx))⟩

theorem goodSpec_skipField (key : String) : goodSpec (skipField key) := by
  refine goodSpec_coalesceOf _ _ ?_ (Or.inl rfl)
  intro x hx
  rcases List.mem_singleton.mp hx with rfl
  refine goodSpec_chainOf _ ?_
  intro y hy
  rcases List.mem_cons.mp hy with rfl | hy2
  · exact trivial
  · rcases List.mem_singleton.mp hy2 with rfl
    exact skip_falsy_good

theorem goodSpec_URL_SPEC : goodSpec URL_SPEC := by
  rw [URL_SPEC]
  refine goodSpec_coalesceOf _ _ ?_ (Or.inl rfl)
  intro x hx
  rcases List.mem_singleton.mp hx with rfl
  refine goodSpec_chainOf _ ?_
  intro y hy
  rcases List.mem_cons.mp hy with rfl | hy
  · refine goodSpec_coalesceOf _ _ ?_ trivial
    intro z hz
    rcases List.mem_cons.mp hz with rfl | hz
    · exact goodSpec_chainOf _ (by
        intro u hu
        rcases List.mem_cons.mp hu with rfl | hu
        · exact trivial
        · rcases List.mem_singleton.mp hu with rfl
          exact required_good)
    · rcases List.mem_singleton.mp hz with rfl
      exact goodSpec_chainOf _ (by
        intro u hu
        rcases List.mem_cons.mp hu with rfl | hu
        · exact trivial
        · rcases List.mem_singleton.mp hu with rfl
          exact email_metadata_good "domain")
  · rcases List.mem_cons.mp hy with rfl | hy
    · exact required_good
    · rcases List.mem_singleton.mp hy with rfl
      exact insert_http_good

theorem goodSpec_answerField (key : String) :
    goodSpec (coalesceOf [chainOf [.path key, .coerce validate_answer]] (some .omit)) := by
  refine goodSpec_coalesceOf _ _ ?_ (Or.inl rfl)
  intro x hx
  rcases List.mem_singleton.mp hx with rfl
  refine goodSpec_chainOf _ ?_
  intro y hy
  rcases List.mem_cons.mp hy with rfl | hy2
  · exact trivial
  · rcases List.mem_singleton.mp hy2 with rfl
    exact validate_answer_good

theorem goodSpec_name_coalesce (key1 key2 key3 : String) (last : Bool) (sel : String) :
    goodSpec (coalesceOf
      [chainOf [.path key1, .coerce required],
       chainOf [.path key2, .coerce (split last ' '), .coerce required],
       chainOf [.path key3, .coerce (email_metadata sel)]]
      (some .omit)) := by
  refine goodSpec_coalesceOf _ _ ?_ (Or.inl rfl)
  intro x hx
  rcases List.mem_cons.mp hx with rfl | hx
  · refine goodSpec_chainOf _ ?_
    intro y hy
    rcases List.mem_cons.mp hy with rfl | hy2
    · exact trivial
    · rcases List.mem_singleton.mp hy2 with rfl
      exact required_good
  · rcases List.mem_cons.mp hx with rfl | hx
    · refine goodSpec_chainOf _ ?_
      intro y hy
      rcases List.mem_cons.mp hy with rfl | hy2
      · exact trivial
      · rcases List.mem_cons.mp hy2 with rfl | hy3
        · exact split_good _ _
        · rcases List.mem_singleton.mp hy3 with rfl
          exact required_good
    · rcases List.mem_singleton.mp hx with rfl
      refine goodSpec_chainOf _ ?_
      intro y hy
      rcases List.mem_cons.mp hy with rfl | hy2
      · exact trivial
      · rcases List.mem_singleton.mp hy2 with rfl
        exact email_metadata_good sel

theorem goodSpec_CONTACT_SPEC : goodSpec CONTACT_SPEC := by
  rw [CONTACT_SPEC, FIRST_NAME_COALESCE, LAST_NAME_COALESCE]
  refine goodSpec_chainOf _ ?_
  intro x hx
  rcases List.mem_cons.mp hx with rfl | hx
  · refine goodSpec_dictOf _ ?_
    intro p hp
    rcases List.mem_cons.mp hp with rfl | hp
    · exact goodSpec_chainOf _ (by
        intro y hy
        rcases List.mem_cons.mp hy with rfl | hy2
        · exact goodSpec_name_coalesce _ _ _ _ _
        · rcases List.mem_singleton.mp hy2 with rfl
          exact skip_falsy_good)
    · rcases List.mem_cons.mp hp with rfl | hp
      · exact goodSpec_chainOf _ (by
          intro y hy
          rcases List.mem_cons.mp hy with rfl | hy2
          · exact goodSpec_name_coalesce _ _ _ _ _
          · rcases List.mem_singleton.mp hy2 with rfl
            exact skip_falsy_good)
      · rcases List.mem_cons.mp hp with rfl | hp
        · exact goodSpec_skipField _
        · rcases List.mem_singleton.mp hp with rfl
          refine goodSpec_coalesceOf _ _ ?_ (Or.inl rfl)
          intro y hy
          rcases List.mem_singleton.mp hy with rfl
          refine goodSpec_chainOf _ ?_
          intro z hz
          rcases List.mem_cons.mp hz with rfl | hz
          · exact trivial
          · rcases List.mem_cons.mp hz with rfl | hz2
            · exact as_string_good
            · rcases List.mem_singleton.mp hz2 with rfl
              exact skip_falsy_good
  · rcases List.mem_singleton.mp hx with rfl
    exact skip_falsy_good

theorem goodSpec_skipdict (fields : List (String × Spec)) (hf : ∀ p ∈ fields, goodSpec p.2) :
    goodSpec (chainOf [dictOf fields, .coerce skip_falsy]) := by
  refine goodSpec_chainOf _ ?_
  intro x hx
  rcases List.mem_cons.mp hx with rfl | hx
  · exact goodSpec_dictOf _ hf
  · rcases List.mem_singleton.mp hx with rfl
    exact skip_falsy_good

theorem goodSpec_ADDRESS_SPEC : goodSpec ADDRESS_SPEC := by
  rw [ADDRESS_SPEC]
  refine goodSpec_skipdict _ ?_
  intro p hp
  rcases List.mem_cons.mp hp with rfl | hp
  · exact goodSpec_skipField _
  · rcases List.mem_singleton.mp hp with rfl
    exact goodSpec_skipField _

theorem goodSpec_SCOPING_SPEC : goodSpec SCOPING_SPEC := by
  rw [SCOPING_SPEC]
  refine goodSpec_skipdict _ ?_
  intro p hp
  simp only [List.mem_cons, List.mem_singleton] at hp
  rcases hp with rfl | rfl | rfl | rfl | rfl | rfl | rfl | rfl | h8
  · exact goodSpec_answerField _
  · exact goodSpec_answerField _
  · exact goodSpec_answerField _
  · exact goodSpec_answerField _
  · exact goodSpec_answerField _
  · exact goodSpec_answerField _
  · exact goodSpec_answerField _
  · exact goodSpec_answerField _
  · cases h8

theorem goodSpec_INTERNAL_SPEC : goodSpec INTERNAL_SPEC := by
  rw [INTERNAL_SPEC]
  refine goodSpec_skipdict _ ?_
  intro p hp
  simp only [INTERNAL_FIELDS, List.mem_cons, List.mem_singleton] at hp
  rcases hp with rfl | rfl | rfl | h4
  · exact goodSpec_skipField _
  · exact goodSpec_skipField _
  · exact goodSpec_skipField _
  · cases h4

theorem goodSpec_CYBER_SPEC : goodSpec CYBER_SPEC := by
  rw [CYBER_SPEC]
  refine goodSpec_skipdict _ ?_
  intro p hp
  simp only [List.mem_cons, List.mem_singleton] at hp
  rcases hp with rfl | rfl | rfl | rfl | rfl | rfl | h7
  · exact goodSpec_skipField _
  · exact goodSpec_skipField _
  · exact goodSpec_skipField _
  · exact goodSpec_skipField _
  · exact goodSpec_skipField _
  · exact goodSpec_skipField _
  · cases h7

theorem goodSpec_CUSTOM_METADATA_SPEC : goodSpec CUSTOM_METADATA_SPEC := by
  rw [CUSTOM_METADATA_SPEC]
  refine goodSpec_skipdict _ ?_
  intro p hp
  simp only [CUSTOM_METADATA_FIELDS, List.mem_cons, List.mem_singleton] at hp
  rcases hp with rfl | rfl | h3
  · exact goodSpec_INTERNAL_SPEC
  · exact goodSpec_CYBER_SPEC
  · cases h3

theorem goodSpec_COMPANY_SCHEMA : goodSpec COMPANY_SCHEMA := by
  rw [COMPANY_SCHEMA]
  refine goodSpec_dictOf _ ?_
  intro p hp
  simp only [COMPANY_FIELDS, List.mem_cons, List.mem_singleton] at hp
  rcases hp with rfl | rfl | rfl | rfl | rfl | rfl | rfl | rfl | rfl | h10
  · exact trivial
  · exact goodSpec_URL_SPEC
  · refine goodSpec_chainOf _ ?_
    intro y hy
    rcases List.mem_cons.mp hy with rfl | hy2
    · exact trivial
    · rcases List.mem_singleton.mp hy2 with rfl
      exact as_string_good
  · refine goodSpec_chainOf _ ?_
    intro y hy
    rcases List.mem_cons.mp hy with rfl | hy2
    · refine goodSpec_coalesceOf _ _ ?_ (Or.inr rfl)
      intro z hz
      rcases List.mem_singleton.mp hz with rfl
      exact trivial
    · rcases List.mem_singleton.mp hy2 with rfl
      exact date_or_none_good
  · exact goodSpec_ADDRESS_SPEC
  · refine goodSpec_coalesceOf _ _ ?_ (Or.inl rfl)
    intro y hy
    rcases List.mem_singleton.mp hy with rfl
    refine goodSpec_chainOf _ ?_
    intro z hz
    rcases List.mem_cons.mp hz with rfl | hz2
    · exact trivial
    · rcases List.mem_singleton.mp hz2 with rfl
      exact valid_assessment_order_good
  · exact goodSpec_CONTACT_SPEC
  · exact goodSpec_SCOPING_SPEC
  · exact goodSpec_CUSTOM_METADATA_SPEC
  · cases h10

/-- A spec whose evaluation reads the root target only through key lookups:
its first chain stage, every fallback alternative and every mapping child is
itself grounded, and no bare coercer or empty chain sits at root position.
Every node of `COMPANY_SCHEMA` is grounded. -/
def grounded : Spec → Bool
  | .path _ => true
  | .coerce _ => false
  | .done => false
  | .seq s _ => grounded s
  | .alt s rest => grounded s && grounded rest
  | .dflt _ => true
  | .dnil => true
  | .dcons _ s rest => grounded s && grounded rest

theorem eval_agree (s : Spec) (r1 r2 : Value) (hgr : grounded s = true)
    (hag : ∀ k, k ∈ specKeys s → r1.getKey k = r2.getKey k) :
    eval s r1 = eval s r2 := by
  induction s with
  | path p =>
    simp only [eval]
    rw [hag p (List.mem_singleton.mpr rfl)]
  | coerce f => cases hgr
  | done => cases hgr
  | seq a b iha ihb =>
    simp only [eval]
    rw [iha hgr hag]
  | alt a b iha ihb =>
    simp only [grounded, Bool.and_eq_true] at hgr
    simp only [eval]
    rw [iha hgr.1 (fun k hk => hag k (List.mem_append_left _ hk)),
        ihb hgr.2 (fun k hk => hag k (List.mem_append_right _ hk))]
  | dflt d => cases d <;> rfl
  | dnil => rfl
  | dcons k a b iha ihb =>
    simp only [grounded, Bool.and_eq_true] at hgr
    simp only [eval]
    rw [iha hgr.1 (fun k2 hk => hag k2 (List.mem_append_left _ hk)),
        ihb hgr.2 (fun k2 hk => hag k2 (List.mem_append_right _ hk))]

theorem normalize_vendor_congr (r1 r2 : Value) (spec : Spec)
    (h : eval spec r1 = eval spec r2) :
    normalize_vendor r1 spec = normalize_vendor r2 spec := by
  unfold normalize_vendor
  rw [h]

/-- C9: schema evaluation and record normalization are deterministic, pure
functions of the (schema, record) pair: evaluating the same schema against
the same raw record twice yields structurally equal results.  The embedding
is a translation of the source into pure functions — the source allocates
fresh output structures and never mutates its input record — so
side-effect-freedom holds by construction and determinism is definitional
equality. -/
theorem schema_evaluation_deterministic :
    ∀ (spec : Spec) (r : Value),
      eval spec r = eval spec r ∧ normalize_vendor r spec = normalize_vendor r spec :=
  fun _ _ => ⟨rfl, rfl⟩

/-- C4: a fallback chain tries its alternatives in declared order: the first
alternative producing a non-failing value wins and short-circuits the rest;
a soft failure moves to the next alternative; an exhausted chain yields the
supplied default, or the Omission Signal when declared with no default.  In
particular the contact first-name chain over a record whose only populated
field is the combined name `"Ann Lee"` yields `"Ann"` (the second
alternative wins). -/
theorem coalesce_first_success_wins :
    (∀ (s : Spec) (rest : List Spec) (d : Option Value) (t v : Value),
        eval s t = .ok v → eval (coalesceOf (s :: rest) d) t = .ok v) ∧
    (∀ (s : Spec) (rest : List Spec) (d : Option Value) (t : Value) (m : String),
        eval s t = .error (.glom m) →
        eval (coalesceOf (s :: rest) d) t = eval (coalesceOf rest d) t) ∧
    (∀ (d t : Value), eval (coalesceOf [] (some d)) t = .ok d) ∧
    (∀ t : Value, eval (coalesceOf [] Option.none) t = .ok .omit) ∧
    eval FIRST_NAME_COALESCE (.dict [("third_party_contact_name", .str "Ann Lee")]) =
      .ok (.str "Ann") :=
  ⟨eval_coalesceOf_first_ok, eval_coalesceOf_first_soft, eval_coalesceOf_exhausted,
   eval_coalesceOf_exhausted_no_default, rfl⟩

/-- Witness for C4: a two-alternative chain over a record missing the first
key takes the second alternative. -/
theorem coalesce_first_success_wins_witness :
    eval (coalesceOf [.path "a", .path "b"] (some .omit)) (.dict [("b", .str "x")]) =
      .ok (.str "x") := by
  rw [coalesce_first_success_wins.2.1 (.path "a") [.path "b"] (some .omit)
        (.dict [("b", .str "x")]) "could not access path a" rfl]
  exact coalesce_first_success_wins.1 (.path "b") [] (some .omit)
    (.dict [("b", .str "x")]) (.str "x") rfl

/-- C1 fails as stated: the canonical record of the Acme row holds only the
three mapped columns, but `COMPANY_SCHEMA`'s `custom_id` field reads the
`custom_id` key through a bare chain with no fallback, so evaluation raises
a path-access failure instead of yielding a normalized record
(`row_to_vendor` would have added `custom_id` before evaluation). -/
theorem company_schema_acme_row_missing_custom_id_fails :
    eval COMPANY_SCHEMA
      (.dict [("company_name", .str "Acme"),
              ("third_party_contact_email", .str "j.smith@acme.com"),
              ("assessment_order", .str "Tier 1")]) =
      .error (.glom "could not access path custom_id") := rfl

/-- C1 (amended): over the canonical Acme row augmented with the `custom_id`
key that `row_to_vendor` always adds, `COMPANY_SCHEMA` yields the normalized
record with `name = "Acme"`, `url = "https://acme.com"` (derived from the
email's domain), `third_party_contact.first_name = "J"`,
`third_party_contact.last_name = "Smith"`,
`order_info = {tier: 1, validated: true}`, and no `address` key. -/
theorem company_schema_acme_row_normalizes :
    eval COMPANY_SCHEMA
      (.dict [("company_name", .str "Acme"),
              ("third_party_contact_email", .str "j.smith@acme.com"),
              ("assessment_order", .str "Tier 1"),
              ("custom_id", .str "123")]) =
      .ok (.dict
        [("name", .str "Acme"),
         ("url", .str "https://acme.com"),
         ("custom_id", .str "123"),
         ("ingest_date", .none),
         ("order_info", .dict [("tier", .int 1), ("validated", .bool true)]),
         ("third_party_contact", .dict
           [("first_name", .str "J"),
            ("last_name", .str "Smith"),
            ("email", .str "j.smith@acme.com")])]) ∧
    (Value.dict
        [("name", .str "Acme"),
         ("url", .str "https://acme.com"),
         ("custom_id", .str "123"),
         ("ingest_date", .none),
         ("order_info", .dict [("tier", .int 1), ("validated", .bool true)]),
         ("third_party_contact", .dict
           [("first_name", .str "J"),
            ("last_name", .str "Smith"),
            ("email", .str "j.smith@acme.com")])]).getKey "address" = Option.none :=
  ⟨rfl, rfl⟩

/-- C3 fails as stated: on the syntactically valid email `"ann@x.com"` the
local part `"ann"` has a single `.`-delimited token, and the source's
`split(False, ".")` (which requires at least two tokens) raises a
`GlomError`, so `email_metadata("first_name")` fails instead of returning
the capitalized first token `"Ann"`. -/
theorem email_metadata_first_name_dotless_local_fails :
    email_metadata "first_name" (.str "ann@x.com") =
      .error (.glom "Value did not have 2 or more elements") := rfl

/-- C5: `validate_answer` maps a non-falsy value by case-insensitive,
whitespace-trimmed prefix match against the keys of the fixed enumeration
(least, minimal, moderate, significant — tried in that order, first match
winning) to the canonical label; falsy input or input matching no key
yields the Omission Signal; it never produces a hard failure.  Concretely,
`"Significant impact"` maps to `"Significant"`. -/
theorem validate_answer_prefix_match (v : Value) :
    (falsy v = true → validate_answer v = .ok .omit) ∧
    (falsy v = false →
      pyStartsWith (pyLower (pyStrip (pyStr v))) "least" = true →
      validate_answer v = .ok (.str "Least")) ∧
    (falsy v = false →
      pyStartsWith (pyLower (pyStrip (pyStr v))) "least" = false →
      pyStartsWith (pyLower (pyStrip (pyStr v))) "minimal" = true →
      validate_answer v = .ok (.str "Minimal")) ∧
    (falsy v = false →
      pyStartsWith (pyLower (pyStrip (pyStr v))) "least" = false →
      pyStartsWith (pyLower (pyStrip (pyStr v))) "minimal" = false →
      pyStartsWith (pyLower (pyStrip (pyStr v))) "moderate" = true →
      validate_answer v = .ok (.str "Moderate")) ∧
    (falsy v = false →
      pyStartsWith (pyLower (pyStrip (pyStr v))) "least" = false →
      pyStartsWith (pyLower (pyStrip (pyStr v))) "minimal" = false →
      pyStartsWith (pyLower (pyStrip (pyStr v))) "moderate" = false →
      pyStartsWith (pyLower (pyStrip (pyStr v))) "significant" = true →
      validate_answer v = .ok (.str "Significant")) ∧
    (falsy v = false →
      pyStartsWith (pyLower (pyStrip (pyStr v))) "least" = false →
      pyStartsWith (pyLower (pyStrip (pyStr v))) "minimal" = false →
      pyStartsWith (pyLower (pyStrip (pyStr v))) "moderate" = false →
      pyStartsWith (pyLower (pyStrip (pyStr v))) "significant" = false →
      validate_answer v = .ok .omit) ∧
    (∃ w, validate_answer v = .ok w) ∧
    validate_answer (.str "Significant impact") = .ok (.str "Significant") := by
  refine ⟨?_, ?_, ?_, ?_, ?_, ?_, ?_, rfl⟩
  · intro hf
    rw [validate_answer, if_pos hf]
  · intro hf h1
    simp [validate_answer, hf, VALID_ANSWERS, List.find?, h1]
  · intro hf h1 h2
    simp [validate_answer, hf, VALID_ANSWERS, List.find?, h1, h2]
  · intro hf h1 h2 h3
    simp [validate_answer, hf, VALID_ANSWERS, List.find?, h1, h2, h3]
  · intro hf h1 h2 h3 h4
    simp [validate_answer, hf, VALID_ANSWERS, List.find?, h1, h2, h3, h4]
  · intro hf h1 h2 h3 h4
    simp [validate_answer, hf, VALID_ANSWERS, List.find?, h1, h2, h3, h4]
  · by_cases hf : falsy v = true
    · exact ⟨.omit, by rw [validate_answer, if_pos hf]⟩
    · rw [validate_answer, if_neg hf]
      dsimp only
      cases hfind : VALID_ANSWERS.find?
          (fun kv => pyStartsWith (pyLower (pyStrip (pyStr v))) kv.1) with
      | none => exact ⟨.omit, rfl⟩
      | some kv => exact ⟨.str kv.2, rfl⟩

/-- Witness for C5: `"unknown"` matches no key and omits; `"Moderate risk"`
prefix-matches the third key. -/
theorem validate_answer_prefix_match_witness :
    validate_answer (.str "unknown") = .ok .omit ∧
    validate_answer (.str "Moderate risk") = .ok (.str "Moderate") :=
  ⟨(validate_answer_prefix_match (.str "unknown")).2.2.2.2.2.1 rfl rfl rfl rfl rfl,
   (validate_answer_prefix_match (.str "Moderate risk")).2.2.2.1 rfl rfl rfl rfl⟩

/-- C3 (amended): `email_metadata(selector)` fails on a falsy value and on a
value failing email-syntax validation; for `"domain"` it returns the domain
of a valid email; for `"first_name"` (resp. `"last_name"`) it returns the
first (resp. last) `.`-delimited token of the local part, capitalized,
provided the local part splits into at least two tokens — when it has fewer
(e.g. a dot-less local part) the source's `split` raises and the coercer
fails. -/
theorem email_metadata_contract (selector : String) (s : String) :
    (∀ v : Value, falsy v = true →
        email_metadata selector v = .error (.glom "Value was not defined")) ∧
    (s.data.isEmpty = false → validate_email s = Option.none →
        email_metadata selector (.str s) =
          .error (.glom "The email address is not valid")) ∧
    (∀ loc dom, validate_email s = some (loc, dom) →
      (selector = "domain" → email_metadata selector (.str s) = .ok (.str dom)) ∧
      (selector ≠ "domain" → 2 ≤ (pySplit '.' loc).length →
          email_metadata selector (.str s) =
            .ok (.str (pyCapitalize
              (if selector = "first_name" then (pySplit '.' loc).headD ""
               else (pySplit '.' loc).getLastD "")))) ∧
      (selector ≠ "domain" → (pySplit '.' loc).length < 2 →
          ∃ m, email_metadata selector (.str s) = .error (.glom m))) := by
  refine ⟨?_, ?_, ?_⟩
  · intro v hf
    rw [email_metadata.eq_def, if_pos hf]
  · intro hne hv
    rw [email_metadata, if_neg (by simp [falsy, hne])]
    try dsimp only
    rw [hv]
  · intro loc dom hv
    have hne : falsy (.str s) = false := by
      obtain ⟨cs⟩ := s
      cases cs with
      | nil => rw [show validate_email (String.mk []) = Option.none from rfl] at hv; cases hv
      | cons c rest => rfl
    refine ⟨?_, ?_, ?_⟩
    · intro hsel
      subst hsel
      rw [email_metadata, if_neg (by simp [hne])]
      try dsimp only
      rw [hv]
      simp
    · intro hsel hlen
      rw [email_metadata, if_neg (by simp [hne])]
      try dsimp only
      rw [hv]
      try dsimp only
      rw [if_neg (by simp [hsel])]
      have hlocne : falsy (.str loc) = false := by
        obtain ⟨lcs⟩ := loc
        cases lcs with
        | nil => exact absurd hlen (by decide)
        | cons c rest => rfl
      rw [split, if_neg (by simp [hlocne])]
      try dsimp only
      rw [if_neg (by omega)]
      by_cases hfn : (selector == "first_name") = true
      · have hfe : selector = "first_name" := by simpa using hfn
        simp [hfn, hfe]
      · have hnf : (selector == "first_name") = false := by
          cases hb : (selector == "first_name")
          · rfl
          · exact absurd hb hfn
        have hfe : selector ≠ "first_name" := by simpa using hnf
        simp [hnf, hfe]
    · intro hsel hlen
      rw [email_metadata, if_neg (by simp [hne])]
      try dsimp only
      rw [hv]
      try dsimp only
      rw [if_neg (by simp [hsel])]
      by_cases hlf : falsy (.str loc) = true
      · rw [split, if_pos hlf]
        exact ⟨_, rfl⟩
      · rw [split, if_neg hlf]
        try dsimp only
        rw [if_pos hlen]
        exact ⟨_, rfl⟩

/-- Witness for C3: on `"a.b@example.com"`, the domain selector yields
`"example.com"` and the first-name selector yields `"A"`. -/
theorem email_metadata_contract_witness :
    email_metadata "domain" (.str "a.b@example.com") = .ok (.str "example.com") ∧
    email_metadata "first_name" (.str "a.b@example.com") = .ok (.str "A") := by
  constructor
  · exact ((email_metadata_contract "domain" "a.b@example.com").2.2 "a.b" "example.com"
      rfl).1 rfl
  · exact ((email_metadata_contract "first_name" "a.b@example.com").2.2 "a.b" "example.com"
      rfl).2.1 (by decide) (by decide)

/-- C6: `date_or_none` returns the real value `None` (not the Omission
Signal) on a falsy value, the parsed date on a string the fixed
`YYYY-MM-DD` format accepts, and a hard (`ValueError`) failure on a
non-empty string the format rejects; that failure propagates out of
`COMPANY_SCHEMA` evaluation for the record, which can then never yield a
normalized record. -/
theorem date_or_none_contract (v : Value) (s : String) (r : Value) :
    (falsy v = true → date_or_none v = .ok .none ∧ Value.none.isOmit = false) ∧
    (∀ y m d, parseDate s = some (y, m, d) → date_or_none (.str s) = .ok (.date y m d)) ∧
    (s.data.isEmpty = false → parseDate s = Option.none →
        date_or_none (.str s) = .error (.value "ValueError: time data does not match format")) ∧
    (r.getKey "ingest_date" = some (.str s) → s.data.isEmpty = false →
        parseDate s = Option.none → ∀ out, eval COMPANY_SCHEMA r ≠ .ok out) := by
  refine ⟨?_, ?_, ?_, ?_⟩
  · intro hf
    exact ⟨by rw [date_or_none.eq_def, if_pos hf], rfl⟩
  · intro y m d hp
    have hne : falsy (.str s) = false := by
      obtain ⟨cs⟩ := s
      cases cs with
      | nil => rw [show parseDate (String.mk []) = Option.none from rfl] at hp; cases hp
      | cons c rest => rfl
    rw [date_or_none, if_neg (by simp [hne])]
    try dsimp only
    rw [hp]
  · intro hne hp
    rw [date_or_none, if_neg (by simp [falsy, hne])]
    try dsimp only
    rw [hp]
  · intro hk hne hp out hok
    have hd : date_or_none (.str s) =
        .error (.value "ValueError: time data does not match format") := by
      rw [date_or_none, if_neg (by simp [falsy, hne])]
      try dsimp only
      rw [hp]
    have herr : eval (chainOf [coalesceOf [.path "ingest_date"] (some .none),
        .coerce date_or_none]) r =
        .error (.value "ValueError: time data does not match format") := by
      simp [chainOf, coalesceOf, eval, hk, hd, Value.isOmit]
    have hmem : ("ingest_date", chainOf [coalesceOf [.path "ingest_date"] (some .none),
        .coerce date_or_none]) ∈ COMPANY_FIELDS := by
      unfold COMPANY_FIELDS
      exact List.mem_cons_of_mem _ (List.mem_cons_of_mem _ (List.mem_cons_of_mem _
        (List.mem_cons_self _ _)))
    obtain ⟨e2, he2⟩ := eval_dictOf_mem_error COMPANY_FIELDS r _ _ _ hmem herr
    unfold COMPANY_SCHEMA at hok
    rw [hok] at he2
    cases he2

/-- Witness for C6: a falsy cell yields `None`; `"2020-13-01"` (month 13)
is rejected and makes whole-schema evaluation fail. -/
theorem date_or_none_contract_witness :
    date_or_none (.str "") = .ok .none ∧
    date_or_none (.str "2020-02-29") = .ok (.date 2020 2 29) ∧
    date_or_none (.str "2020-13-01") =
      .error (.value "ValueError: time data does not match format") ∧
    eval COMPANY_SCHEMA (.dict [("ingest_date", .str "2020-13-01")]) ≠
      .ok (.dict []) := by
  refine ⟨?_, ?_, ?_, ?_⟩
  · exact ((date_or_none_contract (.str "") "x" .none).1 rfl).1
  · exact (date_or_none_contract .none "2020-02-29" .none).2.1 2020 2 29 rfl
  · exact (date_or_none_contract .none "2020-13-01" .none).2.2.1 rfl rfl
  · exact (date_or_none_contract .none "2020-13-01"
      (.dict [("ingest_date", .str "2020-13-01")])).2.2.2 rfl rfl rfl (.dict [])

/-- C7 fails as stated: `category_match` raises a `KeyError` (hard failure)
when a truthy sequence contains an element without a `category` field,
instead of returning `None` for a sequence with no matching element. -/
theorem category_match_missing_category_key_fails :
    category_match "Data Loss" (.list [.dict [("name", .str "x")]]) =
      .error (.value "KeyError: category") := rfl

theorem categoryScan_spec (category : String) (elems : List Value)
    (helems : ∀ e ∈ elems, ∃ fs, e = .dict fs ∧ (lookupField fs "category").isSome = true) :
    categoryScan category elems =
      .ok ((elems.find? (fun e =>
        match e.getKey "category" with
        | some c => pyEqStr c category
        | Option.none => false)).getD .none) := by
  revert helems
  induction elems with
  | nil => intro _; rfl
  | cons e rest ih =>
    intro helems
    obtain ⟨fs, rfl, hcat⟩ := helems _ (List.mem_cons_self _ _)
    cases hc : lookupField fs "category" with
    | none => rw [hc] at hcat; cases hcat
    | some c =>
      simp only [categoryScan, hc]
      by_cases heq : pyEqStr c category = true
      · rw [if_pos heq]
        rw [List.find?_cons_of_pos _ (by simp [Value.getKey, hc, heq])]
        rfl
      · rw [if_neg heq]
        rw [List.find?_cons_of_neg _ (by simp [Value.getKey, hc]; simpa using heq)]
        exact ih (fun e he => helems e (List.mem_cons_of_mem _ he))

/-- C7 (amended): `category_match(category)` returns `None` on falsy input,
and over a sequence whose elements are records each carrying a `category`
field it never fails: it returns the first element whose `category` equals
`category`, or `None` when none does.  (A truthy non-sequence, or an
element without the field, is a hard `TypeError`/`KeyError`.) -/
theorem category_match_contract (category : String) (v : Value) :
    (falsy v = true → category_match category v = .ok .none) ∧
    (∀ elems, v = .list elems →
      (∀ e ∈ elems, ∃ fs, e = .dict fs ∧ (lookupField fs "category").isSome = true) →
      category_match category v =
        .ok ((elems.find? (fun e =>
          match e.getKey "category" with
          | some c => pyEqStr c category
          | Option.none => false)).getD .none)) := by
  constructor
  · intro hf
    rw [category_match.eq_def, if_pos hf]
  · rintro elems rfl helems
    by_cases hf : falsy (.list elems) = true
    · rw [category_match.eq_def, if_pos hf]
      have he : elems = [] := by simpa [falsy] using hf
      subst he
      rfl
    · rw [category_match, if_neg hf]
      try dsimp only
      exact categoryScan_spec category elems helems

/-- Witness for C7: over two tagged records the matching one is returned;
over a non-matching tagged record the result is `None`. -/
theorem category_match_contract_witness :
    category_match "Fraud" (.list
        [.dict [("category", .str "Data Loss"), ("score", .int 1)],
         .dict [("category", .str "Fraud"), ("score", .int 2)]]) =
      .ok (.dict [("category", .str "Fraud"), ("score", .int 2)]) ∧
    category_match "Fraud" (.list [.dict [("category", .str "Data Loss")]]) = .ok .none := by
  constructor
  · exact (category_match_contract "Fraud" _).2 _ rfl (by
      intro e he
      rcases List.mem_cons.mp he with rfl | he2
      · exact ⟨_, rfl, rfl⟩
      · rcases List.mem_singleton.mp he2 with rfl
        exact ⟨_, rfl, rfl⟩)
  · exact (category_match_contract "Fraud" _).2 _ rfl (by
      intro e he
      rcases List.mem_singleton.mp he with rfl
      exact ⟨_, rfl, rfl⟩)

/-- C8: for every raw record free of the Omission Signal (the sentinel is
internal to the evaluator and never occurs in I/O-produced rows), a
successful `normalize_vendor` run over `COMPANY_SCHEMA` yields a record
that does not contain the Omission Signal at any key, at any depth. -/
theorem normalize_vendor_no_omit (r out : Value) (hr : omitFree r = true)
    (h : normalize_vendor r COMPANY_SCHEMA = .ok out) : omitFree out = true := by
  unfold normalize_vendor at h
  cases hev : eval COMPANY_SCHEMA r with
  | error e =>
    rw [hev] at h
    cases h
  | ok vendor =>
    rw [hev] at h
    try dsimp only at h
    cases hfl : vendor_flag vendor with
    | error e =>
      rw [hfl] at h
      try dsimp only at h
      cases h
    | ok flag =>
      rw [hfl] at h
      try dsimp only at h
      obtain ⟨fs, rfl⟩ := eval_dictOf_ok COMPANY_FIELDS r vendor hev
      try dsimp only at h
      cases Except.ok.inj h
      rcases eval_omitFree COMPANY_SCHEMA r _ goodSpec_COMPANY_SCHEMA hr hev with heq | hof
      · cases heq
      · have hfs : omitFreePairs fs = true := by simpa [omitFree] using hof
        simpa [omitFree] using omitFreePairs_setField fs "record_has_url_and_address"
          (.bool flag) hfs rfl

/-- Witness for C8: the Acme row is sentinel-free and so is its normalized
record. -/
theorem normalize_vendor_no_omit_witness :
    omitFree (.dict [("company_name", .str "Acme"), ("custom_id", .str "1")]) = true ∧
    normalize_vendor (.dict [("company_name", .str "Acme"), ("custom_id", .str "1")])
        COMPANY_SCHEMA =
      .ok (.dict [("name", .str "Acme"), ("custom_id", .str "1"), ("ingest_date", .none),
                  ("record_has_url_and_address", .bool false)]) ∧
    omitFree (.dict [("name", .str "Acme"), ("custom_id", .str "1"), ("ingest_date", .none),
                  ("record_has_url_and_address", .bool false)]) = true :=
  ⟨rfl, rfl, normalize_vendor_no_omit
    (.dict [("company_name", .str "Acme"), ("custom_id", .str "1")])
    (.dict [("name", .str "Acme"), ("custom_id", .str "1"), ("ingest_date", .none),
            ("record_has_url_and_address", .bool false)]) rfl rfl⟩

/-- C10: in `COMPANY_SCHEMA` the `custom_metadata.internal.location` output
is extracted from the `internal_description` raw field, not from
`internal_location`: (1) two records agreeing on every key other than
`internal_location` normalize identically — the `internal_location` raw
field never influences the output; (2) in any normalized record the
`location` and `description` entries of `custom_metadata.internal` are
looked up to the same result — both present with equal values or both
absent. -/
theorem internal_location_from_description :
    (∀ r1 r2 : Value,
        (∀ k, k ≠ "internal_location" → r1.getKey k = r2.getKey k) →
        normalize_vendor r1 COMPANY_SCHEMA = normalize_vendor r2 COMPANY_SCHEMA) ∧
    (∀ r out cms ifs, normalize_vendor r COMPANY_SCHEMA = .ok out →
        out.getKey "custom_metadata" = some (.dict cms) →
        lookupField cms "internal" = some (.dict ifs) →
        lookupField ifs "location" = lookupField ifs "description") := by
  constructor
  · intro r1 r2 hag
    refine normalize_vendor_congr r1 r2 COMPANY_SCHEMA
      (eval_agree COMPANY_SCHEMA r1 r2 rfl ?_)
    intro k hk
    refine hag k ?_
    intro heq
    subst heq
    exact absurd hk (by decide)
  · intro r out cms ifs h hcm hint
    unfold normalize_vendor at h
    cases hev : eval COMPANY_SCHEMA r with
    | error e =>
      rw [hev] at h
      cases h
    | ok vendor =>
      rw [hev] at h
      try dsimp only at h
      cases hfl : vendor_flag vendor with
      | error e =>
        rw [hfl] at h
        try dsimp only at h
        cases h
      | ok flag =>
        rw [hfl] at h
        try dsimp only at h
        obtain ⟨fs, rfl⟩ := eval_dictOf_ok COMPANY_FIELDS r vendor hev
        try dsimp only at h
        cases Except.ok.inj h
        rw [Value.getKey, lookupField_setField_other fs "record_has_url_and_address"
          "custom_metadata" (.bool flag) (by decide)] at hcm
        obtain ⟨vcm, hvcm, hlcm⟩ := eval_dictOf_lookup COMPANY_FIELDS r fs
          "custom_metadata" CUSTOM_METADATA_SPEC (by decide) (by
            unfold COMPANY_FIELDS
            exact List.mem_cons_of_mem _ (List.mem_cons_of_mem _ (List.mem_cons_of_mem _
              (List.mem_cons_of_mem _ (List.mem_cons_of_mem _ (List.mem_cons_of_mem _
                (List.mem_cons_of_mem _ (List.mem_cons_of_mem _
                  (List.mem_cons_self _ _))))))))) hev
        rw [hcm] at hlcm
        by_cases ho : vcm.isOmit = true
        · rw [if_pos ho] at hlcm
          cases hlcm
        · rw [if_neg ho] at hlcm
          cases Option.some.inj hlcm
          rcases eval_skipdict_ok CUSTOM_METADATA_FIELDS r _ hvcm with ho2 | ⟨cms2, heq2, hdict2⟩
          · simp [Value.isOmit] at ho2
          · rw [← Value.dict.inj heq2] at hdict2
            obtain ⟨vint, hvint, hlint⟩ := eval_dictOf_lookup CUSTOM_METADATA_FIELDS r cms
              "internal" INTERNAL_SPEC (by decide) (by
                unfold CUSTOM_METADATA_FIELDS
                exact List.mem_cons_self _ _) hdict2
            rw [hint] at hlint
            by_cases ho3 : vint.isOmit = true
            · rw [if_pos ho3] at hlint
              cases hlint
            · rw [if_neg ho3] at hlint
              cases Option.some.inj hlint
              rcases eval_skipdict_ok INTERNAL_FIELDS r _ hvint with ho4 | ⟨ifs2, heq4, hdict4⟩
              · simp [Value.isOmit] at ho4
              · rw [← Value.dict.inj heq4] at hdict4
                obtain ⟨vd, hvd, hld⟩ := eval_dictOf_lookup INTERNAL_FIELDS r ifs
                  "description" (skipField "internal_description") (by decide) (by
                    unfold INTERNAL_FIELDS
                    exact List.mem_cons_of_mem _ (List.mem_cons_self _ _)) hdict4
                obtain ⟨vl, hvl, hll⟩ := eval_dictOf_lookup INTERNAL_FIELDS r ifs
                  "location" (skipField "internal_description") (by decide) (by
                    unfold INTERNAL_FIELDS
                    exact List.mem_cons_of_mem _ (List.mem_cons_of_mem _
                      (List.mem_cons_self _ _))) hdict4
                have hvdl : vd = vl := Except.ok.inj (hvd.symm.trans hvl)
                subst hvdl
                rw [hld, hll]

/-- Witness for C10: changing only the `internal_location` raw field leaves
the normalized record unchanged, and a record whose internal block holds
only an owner has `location` and `description` equally absent. -/
theorem internal_location_from_description_witness :
    normalize_vendor (.dict [("company_name", .str "Acme"), ("custom_id", .str "1"),
        ("internal_location", .str "HQ")]) COMPANY_SCHEMA =
      normalize_vendor (.dict [("company_name", .str "Acme"), ("custom_id", .str "1"),
        ("internal_location", .str "Paris")]) COMPANY_SCHEMA ∧
    lookupField [("owner", Value.str "Bob")] "location" =
      lookupField [("owner", Value.str "Bob")] "description" := by
  constructor
  · refine internal_location_from_description.1 _ _ ?_
    intro k hk
    simp only [Value.getKey, lookupField]
    by_cases h1 : ("company_name" == k) = true
    · simp [h1]
    · by_cases h2 : ("custom_id" == k) = true
      · simp [h1, h2]
      · by_cases h3 : ("internal_location" == k) = true
        · have h3e : "internal_location" = k := beq_iff_eq.mp h3
          exact absurd h3e.symm hk
        · simp [h1, h2, h3]
  · exact internal_location_from_description.2
      (.dict [("company_name", .str "Acme"), ("custom_id", .str "1"),
              ("internal_vendor_owner", .str "Bob")])
      (.dict [("name", .str "Acme"), ("custom_id", .str "1"), ("ingest_date", .none),
              ("custom_metadata", .dict [("internal", .dict [("owner", .str "Bob")])]),
              ("record_has_url_and_address", .bool false)])
      [("internal", .dict [("owner", .str "Bob")])]
      [("owner", .str "Bob")] rfl rfl rfl

/-- C2: `normalize_vendor` over `COMPANY_SCHEMA` sets
`record_has_url_and_address` to true iff the schema-evaluated record
contains a non-empty `url` (the url chain guarantees any present `url` is
truthy) and an `address` sub-object containing both a `city` and a
`country` key; it is false when any of the four conditions fails. -/
theorem normalize_vendor_flag_iff (r out : Value)
    (h : normalize_vendor r COMPANY_SCHEMA = .ok out) :
    out.getKey "record_has_url_and_address" = some (.bool true) ↔
      ∃ u, out.getKey "url" = some u ∧ falsy u = false ∧
        ∃ a, out.getKey "address" = some (.dict a) ∧
          (lookupField a "city").isSome = true ∧
          (lookupField a "country").isSome = true := by
  unfold normalize_vendor at h
  cases hev : eval COMPANY_SCHEMA r with
  | error e =>
    rw [hev] at h
    cases h
  | ok vendor =>
    rw [hev] at h
    try dsimp only at h
    cases hfl : vendor_flag vendor with
    | error e =>
      rw [hfl] at h
      try dsimp only at h
      cases h
    | ok flag =>
      rw [hfl] at h
      try dsimp only at h
      obtain ⟨fs, rfl⟩ := eval_dictOf_ok COMPANY_FIELDS r vendor hev
      try dsimp only at h
      cases Except.ok.inj h
      have hnd : (COMPANY_FIELDS.map Prod.fst).Nodup := by decide
      have hgflag : (Value.dict (setField fs "record_has_url_and_address"
          (.bool flag))).getKey "record_has_url_and_address" = some (.bool flag) := by
        simp only [Value.getKey]
        exact lookupField_setField_self fs _ _
      have hgurl : (Value.dict (setField fs "record_has_url_and_address"
          (.bool flag))).getKey "url" = lookupField fs "url" := by
        simp only [Value.getKey]
        exact lookupField_setField_other fs _ "url" _ (by decide)
      have hgaddr : (Value.dict (setField fs "record_has_url_and_address"
          (.bool flag))).getKey "address" = lookupField fs "address" := by
        simp only [Value.getKey]
        exact lookupField_setField_other fs _ "address" _ (by decide)
      rw [hgflag, hgurl, hgaddr]
      unfold vendor_flag at hfl
      simp only [pyContains, pyGetItem] at hfl
      try dsimp only at hfl
      by_cases hu : (fs.any (fun kv => kv.1 == "url")) = true
      case neg =>
        have hu2 : (fs.any (fun kv => kv.1 == "url")) = false := by
          cases hb : fs.any (fun kv => kv.1 == "url")
          · rfl
          · exact absurd hb hu
        rw [hu2] at hfl
        try dsimp only at hfl
        cases Except.ok.inj hfl
        have hlu : lookupField fs "url" = Option.none := by
          have hiso := any_key_eq_lookup_isSome fs "url"
          rw [hu2] at hiso
          cases hl : lookupField fs "url"
          · rfl
          · rw [hl] at hiso
            cases hiso
        constructor
        · intro hcontra
          cases Option.some.inj hcontra
        · rintro ⟨u, hu3, _⟩
          rw [hlu] at hu3
          cases hu3
      case pos =>
        rw [hu] at hfl
        try dsimp only at hfl
        by_cases ha : (fs.any (fun kv => kv.1 == "address")) = true
        case neg =>
          have ha2 : (fs.any (fun kv => kv.1 == "address")) = false := by
            cases hb : fs.any (fun kv => kv.1 == "address")
            · rfl
            · exact absurd hb ha
          rw [ha2] at hfl
          try dsimp only at hfl
          cases Except.ok.inj hfl
          have hla : lookupField fs "address" = Option.none := by
            have hiso := any_key_eq_lookup_isSome fs "address"
            rw [ha2] at hiso
            cases hl : lookupField fs "address"
            · rfl
            · rw [hl] at hiso
              cases hiso
          constructor
          · intro hcontra
            cases Option.some.inj hcontra
          · rintro ⟨u, _, _, a, ha3, _⟩
            rw [hla] at ha3
            cases ha3
        case pos =>
          rw [ha] at hfl
          try dsimp only at hfl
          have hsa : (lookupField fs "address").isSome = true := by
            rw [← any_key_eq_lookup_isSome]
            exact ha
          obtain ⟨vaddr, hladdr⟩ := Option.isSome_iff_exists.mp hsa
          obtain ⟨va, hva, hlva⟩ := eval_dictOf_lookup COMPANY_FIELDS r fs "address"
            ADDRESS_SPEC hnd (by
              unfold COMPANY_FIELDS
              exact List.mem_cons_of_mem _ (List.mem_cons_of_mem _ (List.mem_cons_of_mem _
                (List.mem_cons_of_mem _ (List.mem_cons_self _ _))))) hev
          rw [hladdr] at hlva
          by_cases hov : va.isOmit = true
          · rw [if_pos hov] at hlva
            cases hlva
          · rw [if_neg hov] at hlva
            cases Option.some.inj hlva
            rcases eval_skipdict_ok ADDRESS_FIELDS r vaddr hva with ho5 | ⟨afs, heqa, hdictA⟩
            · exact absurd ho5 hov
            · subst heqa
              rw [hladdr] at hfl
              try dsimp only at hfl
              by_cases hc : (afs.any (fun kv => kv.1 == "city")) = true
              case neg =>
                have hc2 : (afs.any (fun kv => kv.1 == "city")) = false := by
                  cases hb : afs.any (fun kv => kv.1 == "city")
                  · rfl
                  · exact absurd hb hc
                rw [hc2] at hfl
                try dsimp only at hfl
                cases Except.ok.inj hfl
                constructor
                · intro hcontra
                  cases Option.some.inj hcontra
                · rintro ⟨u, _, _, a, ha3, hc3, _⟩
                  rw [hladdr] at ha3
                  cases Option.some.inj ha3
                  rw [← any_key_eq_lookup_isSome] at hc3
                  rw [hc2] at hc3
                  cases hc3
              case pos =>
                rw [hc] at hfl
                try dsimp only at hfl
                cases Except.ok.inj hfl
                have hsu : (lookupField fs "url").isSome = true := by
                  rw [← any_key_eq_lookup_isSome]
                  exact hu
                obtain ⟨u, hlu⟩ := Option.isSome_iff_exists.mp hsu
                obtain ⟨vu, hvu, hlvu⟩ := eval_dictOf_lookup COMPANY_FIELDS r fs "url"
                  URL_SPEC hnd (by
                    unfold COMPANY_FIELDS
                    exact List.mem_cons_of_mem _ (List.mem_cons_self _ _)) hev
                rw [hlu] at hlvu
                by_cases hou : vu.isOmit = true
                · rw [if_pos hou] at hlvu
                  cases hlvu
                · rw [if_neg hou] at hlvu
                  cases Option.some.inj hlvu
                  have hfu : falsy u = false := by
                    rcases eval_URL_SPEC_ok r u hvu with ho6 | hf6
                    · exact absurd ho6 hou
                    · exact hf6
                  constructor
                  · intro hflagtrue
                    have hcy : (afs.any (fun kv => kv.1 == "country")) = true := by
                      have := Option.some.inj hflagtrue
                      exact Value.bool.inj this
                    refine ⟨u, hlu, hfu, afs, hladdr, ?_, ?_⟩
                    · rw [← any_key_eq_lookup_isSome]
                      exact hc
                    · rw [← any_key_eq_lookup_isSome]
                      exact hcy
                  · rintro ⟨u2, _, _, a, ha3, _, hcy3⟩
                    rw [hladdr] at ha3
                    cases Option.some.inj ha3
                    rw [← any_key_eq_lookup_isSome] at hcy3
                    rw [hcy3]

/-- Witness for C2: a row with a url, city and country normalizes with the
flag set, and the characterization instantiates. -/
theorem normalize_vendor_flag_iff_witness :
    (Value.dict [("name", .str "Acme"), ("url", .str "https://acme.com"),
        ("custom_id", .str "1"), ("ingest_date", .none),
        ("address", .dict [("city", .str "NYC"), ("country", .str "US")]),
        ("record_has_url_and_address", .bool true)]).getKey
        "record_has_url_and_address" = some (.bool true) ↔
      ∃ u, (Value.dict [("name", .str "Acme"), ("url", .str "https://acme.com"),
          ("custom_id", .str "1"), ("ingest_date", .none),
          ("address", .dict [("city", .str "NYC"), ("country", .str "US")]),
          ("record_has_url_and_address", .bool true)]).getKey "url" = some u ∧
        falsy u = false ∧
        ∃ a, (Value.dict [("name", .str "Acme"), ("url", .str "https://acme.com"),
            ("custom_id", .str "1"), ("ingest_date", .none),
            ("address", .dict [("city", .str "NYC"), ("country", .str "US")]),
            ("record_has_url_and_address", .bool true)]).getKey "address" =
            some (.dict a) ∧
          (lookupField a "city").isSome = true ∧
          (lookupField a "country").isSome = true :=
  normalize_vendor_flag_iff
    (.dict [("company_name", .str "Acme"), ("custom_id", .str "1"),
            ("company_url", .str "acme.com"), ("address_city", .str "NYC"),
            ("address_country", .str "US")])
    (.dict [("name", .str "Acme"), ("url", .str "https://acme.com"),
            ("custom_id", .str "1"), ("ingest_date", .none),
            ("address", .dict [("city", .str "NYC"), ("country", .str "US")]),
            ("record_has_url_and_address", .bool true)]) rfl
